import Mathlib

/-! Formal model of the neat-physics 2D rigid-body engine core:
broad phase (sweep and prune), narrow phase (SAT plus clipping),
persistent contact manifolds, the sequential-impulse contact solver and
the world stepping pipeline, translated from the C++ headers of the
templated revision instantiated at dimension 2, with float scalars
idealized as rationals.  The two transcendental library calls of the
source, cos and sin inside rotationMat and sqrt inside the manifold
constructor, are not rational-valued; they are abstracted as an explicit
MathOracle record over which every theorem is universally quantified. -/

namespace nph

/-- Two-dimensional vector with rational components, mirroring Vec2. -/
structure Vec2 where
  x : ℚ
  y : ℚ
deriving DecidableEq, Repr

instance : Add Vec2 := ⟨fun a b => ⟨a.x + b.x, a.y + b.y⟩⟩

instance : Sub Vec2 := ⟨fun a b => ⟨a.x - b.x, a.y - b.y⟩⟩

instance : Neg Vec2 := ⟨fun a => ⟨-a.x, -a.y⟩⟩

/-- Scalar-vector multiplication, mirroring operator*(float, Vec2). -/
instance : HMul ℚ Vec2 Vec2 := ⟨fun s v => ⟨s * v.x, s * v.y⟩⟩

instance : Zero Vec2 := ⟨⟨0, 0⟩⟩

@[simp] theorem Vec2.add_x (a b : Vec2) : (a + b).x = a.x + b.x := rfl

@[simp] theorem Vec2.add_y (a b : Vec2) : (a + b).y = a.y + b.y := rfl

@[simp] theorem Vec2.sub_x (a b : Vec2) : (a - b).x = a.x - b.x := rfl

@[simp] theorem Vec2.sub_y (a b : Vec2) : (a - b).y = a.y - b.y := rfl

@[simp] theorem Vec2.neg_x (a : Vec2) : (-a).x = -a.x := rfl

@[simp] theorem Vec2.neg_y (a : Vec2) : (-a).y = -a.y := rfl

@[simp] theorem Vec2.smul_x (s : ℚ) (a : Vec2) : (s * a).x = s * a.x := rfl

@[simp] theorem Vec2.smul_y (s : ℚ) (a : Vec2) : (s * a).y = s * a.y := rfl

@[simp] theorem Vec2.zero_x : (0 : Vec2).x = 0 := rfl

@[simp] theorem Vec2.zero_y : (0 : Vec2).y = 0 := rfl

theorem Vec2.ext_xy {a b : Vec2} (hx : a.x = b.x) (hy : a.y = b.y) : a = b := by
  cases a; cases b; cases hx; cases hy; rfl

@[simp] theorem Vec2.add_zero (a : Vec2) : a + (0 : Vec2) = a := by
  apply Vec2.ext_xy <;> simp

@[simp] theorem Vec2.zero_smul (a : Vec2) : (0 : ℚ) * a = (0 : Vec2) := by
  apply Vec2.ext_xy <;> simp

@[simp] theorem Vec2.smul_zero (s : ℚ) : s * (0 : Vec2) = (0 : Vec2) := by
  apply Vec2.ext_xy <;> simp

@[simp] theorem Vec2.sub_zero (a : Vec2) : a - (0 : Vec2) = a := by
  apply Vec2.ext_xy <;> simp

/-- Squared length of a vector, mirroring Vec2.lengthSquared. -/
def Vec2.lengthSquared (v : Vec2) : ℚ := v.x * v.x + v.y * v.y

/-- Dot product, mirroring dot(Vec2, Vec2). -/
def dot (a b : Vec2) : ℚ := a.x * b.x + a.y * b.y

/-- Cross product of two xy vectors, mirroring cross(Vec2, Vec2):
the scalar z-component of the 3D cross product. -/
def crossVV (a b : Vec2) : ℚ := a.x * b.y - a.y * b.x

/-- Cross product of an xy vector and a z value, mirroring cross(Vec2, float). -/
def crossVZ (v : Vec2) (z : ℚ) : Vec2 := ⟨v.y * z, -v.x * z⟩

/-- Cross product of a z value and an xy vector, mirroring cross(float, Vec2). -/
def crossZV (z : ℚ) (v : Vec2) : Vec2 := ⟨-v.y * z, v.x * z⟩

/-- Component-wise absolute value, mirroring abs(Vec2). -/
def absV (v : Vec2) : Vec2 := ⟨|v.x|, |v.y|⟩

/-- Column-major 2-by-2 matrix, mirroring Mat22. -/
structure Mat22 where
  col1 : Vec2
  col2 : Vec2
deriving DecidableEq, Repr

/-- Transposed matrix, mirroring Mat22.getTransposed. -/
def Mat22.getTransposed (m : Mat22) : Mat22 :=
  ⟨⟨m.col1.x, m.col2.x⟩, ⟨m.col1.y, m.col2.y⟩⟩

/-- Column access, mirroring Mat22 operator[]: column 0 is col1, else col2. -/
def Mat22.col (m : Mat22) (i : ℕ) : Vec2 := if i = 0 then m.col1 else m.col2

/-- Matrix-vector multiplication, mirroring operator*(Mat22, Vec2). -/
instance : HMul Mat22 Vec2 Vec2 :=
  ⟨fun m v => ⟨m.col1.x * v.x + m.col2.x * v.y, m.col1.y * v.x + m.col2.y * v.y⟩⟩

/-- Matrix-matrix multiplication, mirroring operator*(Mat22, Mat22). -/
instance : HMul Mat22 Mat22 Mat22 := ⟨fun a b => ⟨a * b.col1, a * b.col2⟩⟩

/-- Component-wise absolute value of a matrix, mirroring abs(Mat22). -/
def absM (m : Mat22) : Mat22 := ⟨absV m.col1, absV m.col2⟩

/-- Component access of a Vec2 by axis index, mirroring Vec2 operator[]:
index 0 is x, else y. -/
def Vec2.comp (v : Vec2) (i : ℕ) : ℚ := if i = 0 then v.x else v.y

/-- Oracle bundling the two transcendental float library calls of the
source that have no exact rational counterpart: rotationMat builds the
cos/sin rotation matrix of an angle, sqrt is used for the composite
friction coefficient.  Theorems quantify over every oracle. -/
structure MathOracle where
  rotationMat : ℚ → Mat22
  sqrt : ℚ → ℚ

/-- Rotation state, mirroring the 2D Rotation class: the angle parameter
together with its cached rotation matrix. -/
structure Rot2 where
  angle : ℚ
  mat : Mat22
deriving DecidableEq, Repr

/-- Mirrors Rotation.setAngle: stores the angle and refreshes the cached
matrix from it. -/
def Rot2.setAngle (o : MathOracle) (a : ℚ) : Rot2 := ⟨a, o.rotationMat a⟩

/-- Mirrors Rotation.getAngle. -/
def Rot2.getAngle (r : Rot2) : ℚ := r.angle

/-- Box-shaped rigid body, mirroring Body<2>. -/
structure Body where
  halfSize : Vec2
  mass : ℚ
  invMass : ℚ
  inertia : ℚ
  invInertia : ℚ
  friction : ℚ
  position : Vec2
  rot : Rot2
  linearVelocity : Vec2
  angularVelocity : ℚ
deriving DecidableEq, Repr

/-- Mirrors getBoxInertia: moment of inertia of a 2D box. -/
def getBoxInertia (size : Vec2) (mass : ℚ) : ℚ :=
  mass * size.lengthSquared / 12

/-- Mirrors getInvInertia. -/
def getInvInertia (inertia : ℚ) : ℚ := if inertia = 0 then 0 else 1 / inertia

/-- Mirrors the Body constructor: derived mass and inertia fields;
position and rotation are the zero defaults until addBody sets them. -/
def mkBody (size : Vec2) (mass friction : ℚ) : Body :=
  { halfSize := (1 / 2 : ℚ) * size
    mass := mass
    invMass := if mass = 0 then 0 else 1 / mass
    inertia := getBoxInertia size mass
    invInertia := getInvInertia (getBoxInertia size mass)
    friction := friction
    position := 0
    rot := ⟨0, ⟨⟨1, 0⟩, ⟨0, 1⟩⟩⟩
    linearVelocity := 0
    angularVelocity := 0 }

/-- Mirrors Body.isStatic. -/
def Body.isStatic (b : Body) : Prop := b.mass = 0

instance (b : Body) : Decidable b.isStatic := by unfold Body.isStatic; infer_instance

/-- Axis-aligned bounding box, mirroring Aabb<2>. -/
structure Aabb where
  min : Vec2
  max : Vec2
deriving DecidableEq, Repr

/-- Mirrors getAabb for a box geometry: position plus and minus the
rotated half extents. -/
def getAabb (position : Vec2) (rotation : Mat22) (halfSize : Vec2) : Aabb :=
  let absRotation := absM rotation
  let halfExtents := halfSize.x * absRotation.col1 + halfSize.y * absRotation.col2
  ⟨position - halfExtents, position + halfExtents⟩

/-- World AABB of a body, as BroadPhase.update computes it. -/
def Body.aabb (b : Body) : Aabb := getAabb b.position b.rot.mat b.halfSize

/-- Endpoint of a segment for the sweep-and-prune, mirroring
BroadPhase.Endpoint. -/
structure Endpoint where
  position : ℚ
  index : ℕ
  isStart : Bool
deriving DecidableEq, Repr

/-- Strict endpoint order, mirroring Endpoint operator<: primary key the
coordinate ascending, secondary key isStart ascending, so that at equal
coordinates an end event precedes a start event. -/
def endpointLT (a b : Endpoint) : Prop :=
  a.position < b.position ∨
    (a.position = b.position ∧ a.isStart = false ∧ b.isStart = true)

instance : DecidableRel endpointLT := fun a b => by
  unfold endpointLT; infer_instance

/-- Non-strict companion of endpointLT, the order std::sort establishes. -/
def endpointLE (a b : Endpoint) : Prop := ¬ endpointLT b a

instance : DecidableRel endpointLE := fun a b => by
  unfold endpointLE; infer_instance

theorem endpointLT_asymm {a b : Endpoint} (h : endpointLT a b) : ¬ endpointLT b a := by
  rcases h with h | ⟨he, ha, hb⟩
  · rintro (h2 | ⟨he2, _, _⟩)
    · exact absurd h (not_lt.mpr h2.le)
    · exact (ne_of_lt h) he2.symm
  · rintro (h2 | ⟨_, hb2, ha2⟩)
    · exact absurd h2 (not_lt.mpr he.le)
    · rw [hb] at hb2; exact Bool.noConfusion hb2

theorem endpointLT_resolve {a c : Endpoint} (h : endpointLT c a) (b : Endpoint) :
    endpointLT c b ∨ endpointLT b a := by
  rcases h with h | ⟨he, hc, ha⟩
  · rcases lt_trichotomy c.position b.position with h2 | h2 | h2
    · exact Or.inl (Or.inl h2)
    · exact Or.inr (Or.inl (h2 ▸ h))
    · exact Or.inr (Or.inl (lt_trans h2 h))
  · rcases lt_trichotomy c.position b.position with h2 | h2 | h2
    · exact Or.inl (Or.inl h2)
    · cases hb : b.isStart
      · exact Or.inr (Or.inr ⟨by rw [← h2, he], hb, ha⟩)
      · exact Or.inl (Or.inr ⟨h2, hc, hb⟩)
    · exact Or.inr (Or.inl (he ▸ h2))

instance : IsTotal Endpoint endpointLE :=
  ⟨fun a b => by
    by_cases h : endpointLT b a
    · exact Or.inr (endpointLT_asymm h)
    · exact Or.inl h⟩

instance : IsTrans Endpoint endpointLE :=
  ⟨fun a b c hab hbc => by
    intro hlt
    rcases endpointLT_resolve hlt b with h | h
    · exact hbc h
    · exact hab h⟩

/-- Intermediate state of the sweep pass, mirroring the mActivePoints
array, the mActiveMapping slot table, and the pairs reported so far
through the callback. -/
structure SweepState where
  active : List ℕ
  mapping : ℕ → ℕ
  pairs : List (ℕ × ℕ)

/-- Remaining-axes overlap test of BroadPhase.sweepAxis for D = 2: the
pair is rejected when the y intervals are disjoint. -/
def yOverlap (aabbA aabbB : Aabb) : Prop :=
  ¬ (aabbA.max.y < aabbB.min.y ∨ aabbB.max.y < aabbA.min.y)

instance (aabbA aabbB : Aabb) : Decidable (yOverlap aabbA aabbB) := by
  unfold yOverlap; infer_instance

/-- Mirrors Body.isStatic for an index into the body array. -/
def staticAt (bodies : List Body) (i : ℕ) : Prop :=
  (bodies.getD i (mkBody ⟨1, 1⟩ 0 0)).isStatic

instance (bodies : List Body) (i : ℕ) : Decidable (staticAt bodies i) := by
  unfold staticAt; infer_instance

/-- AABB of the body at an index, as stored in mAabbs. -/
def aabbAt (bodies : List Body) (i : ℕ) : Aabb :=
  (bodies.getD i (mkBody ⟨1, 1⟩ 0 0)).aabb

/-- One iteration of the event loop of BroadPhase.sweepAxis.  A start
event reports the surviving pairs against the active set in order and
then appends the body to the active set, recording its slot; an end
event removes the body by swap-and-pop using the recorded slot and fixes
up the moved element's slot. -/
def sweepStep (bodies : List Body) (st : SweepState) (e : Endpoint) : SweepState :=
  if e.isStart then
    let i1 := e.index
    let reported := st.active.filterMap fun i2 =>
      if staticAt bodies i1 ∧ staticAt bodies i2 then none
      else if ¬ yOverlap (aabbAt bodies i1) (aabbAt bodies i2) then none
      else if i1 < i2 then some (i1, i2) else some (i2, i1)
    { active := st.active ++ [i1]
      mapping := fun j => if j = i1 then st.active.length else st.mapping j
      pairs := st.pairs ++ reported }
  else
    let idx := st.mapping e.index
    let last := (st.active.getLast?).getD 0
    { active := (st.active.set idx last).dropLast
      mapping := fun j => if j = last then idx else st.mapping j
      pairs := st.pairs }

/-- Mirrors BroadPhase.sweepAxis: the event loop over the sorted
endpoints starting from an empty active set; the result is the reported
pair sequence. -/
def sweepAxis (bodies : List Body) (endpoints : List Endpoint) : List (ℕ × ℕ) :=
  (endpoints.foldl (sweepStep bodies) ⟨[], fun _ => 0, []⟩).pairs

/-- Mirrors the endpoint-position refresh loop of BroadPhase.update:
a start endpoint takes the x minimum of its body's AABB, an end endpoint
the x maximum. -/
def refreshEndpoint (bodies : List Body) (e : Endpoint) : Endpoint :=
  { e with position := if e.isStart then (aabbAt bodies e.index).min.x
                       else (aabbAt bodies e.index).max.x }

/-- Mirrors the endpoint bookkeeping of BroadPhase.update: the list is
dropped wholesale when longer than twice the body count (which happens
only after clear), endpoints are appended for bodies added since the
last update, and every endpoint coordinate is refreshed from the AABBs. -/
def updateEndpoints (bodies : List Body) (es : List Endpoint) : List Endpoint :=
  let kept := if 2 * bodies.length < es.length then [] else es
  let grown := kept ++ (List.range' (kept.length / 2) (bodies.length - kept.length / 2)).flatMap
    (fun i => [⟨0, i, true⟩, ⟨0, i, false⟩])
  grown.map (refreshEndpoint bodies)

/-- Mirrors BroadPhase.update: refresh and sort the endpoint list (the
source uses std::sort with Endpoint operator<; insertionSort with the
induced total preorder is one admissible outcome, and the spec notes the
insertion sort as the intended choice), then sweep.  Returns the new
endpoint state and the reported pairs. -/
def broadPhaseUpdate (bodies : List Body) (es : List Endpoint) :
    List Endpoint × List (ℕ × ℕ) :=
  let sorted := List.insertionSort endpointLE (updateEndpoints bodies es)
  (sorted, sweepAxis bodies sorted)

/-- Pair of geometry and edge indices naming the topological feature that
produced a contact point, mirroring CollisionPoint.GeometryFeature. -/
structure GeometryFeature where
  geometry : ℕ
  edge : ℕ
deriving DecidableEq, Repr

/-- Strict feature order, mirroring GeometryFeature operator<. -/
def featureLT (a b : GeometryFeature) : Prop :=
  a.geometry < b.geometry ∨ (a.geometry = b.geometry ∧ a.edge < b.edge)

instance : DecidableRel featureLT := fun a b => by
  unfold featureLT; infer_instance

/-- Pair of geometry features, mirroring GeometryFeaturePair. -/
def FeaturePair := GeometryFeature × GeometryFeature
deriving DecidableEq, Repr

/-- Collision point between two geometries, mirroring CollisionPoint<2>.
The two local points are stored as an explicit pair indexed by box. -/
structure CollisionPoint where
  position : Vec2
  normal : Vec2
  penetration : ℚ
  clipBoxIndex : ℕ
  localPoint0 : Vec2
  localPoint1 : Vec2
  localContactNormal : Vec2
  featurePair : FeaturePair
deriving DecidableEq, Repr

/-- Plane given by a normal and an offset, mirroring Plane<2>. -/
structure PlaneQ where
  normal : Vec2
  offset : ℚ
deriving DecidableEq, Repr

/-- Signed distance from the plane to a point, mirroring Plane.getDistance. -/
def PlaneQ.getDistance (p : PlaneQ) (point : Vec2) : ℚ :=
  dot p.normal point - p.offset

/-- Point produced by the clipping stage, mirroring ClippedPoint. -/
structure ClippedPoint where
  position : Vec2
  featurePair : FeaturePair
deriving DecidableEq, Repr

/-- Selects the element of a two-element array by box index: index 0
gives the first element, any other index the second. -/
def sel2 {α : Type} (i : ℕ) (p : α × α) : α := if i = 0 then p.1 else p.2

/-- Mirrors clipEdgeByPlane: half-space clipping of a two-point edge with
linear interpolation at a sign change.  Returns the clipped edge when two
points survive, none otherwise (the caller then reports no collision).
The interpolated point takes the feature pair of the source point
selected by the index pi computed as the boolean (distances[0] <= 0),
with the component at that same index overwritten by the clipping box
and clipping edge identity, exactly as in the source. -/
def clipEdgeByPlane (src0 src1 : ClippedPoint) (clipPlane : PlaneQ)
    (clipBody clipEdgeIdx : ℕ) : Option (ClippedPoint × ClippedPoint) :=
  let d0 := clipPlane.getDistance src0.position
  let d1 := clipPlane.getDistance src1.position
  let lerpFactor := d0 / (d0 - d1)
  let lerpPos := src0.position + lerpFactor * (src1.position - src0.position)
  if d0 ≤ 0 then
    if d1 ≤ 0 then some (src0, src1)
    else if d0 * d1 < 0 then
      some (src0, ⟨lerpPos, (src1.featurePair.1, ⟨clipBody, clipEdgeIdx⟩)⟩)
    else none
  else
    if d1 ≤ 0 then
      if d0 * d1 < 0 then
        some (src1, ⟨lerpPos, (⟨clipBody, clipEdgeIdx⟩, src0.featurePair.2)⟩)
      else none
    else none

/-- Exact value of std::numeric_limits of float max, the initial minimum
of the separating-axis scan. -/
def floatMaxQ : ℚ := 340282346638528859811704183484516925440

/-- Vertex sign table of the incident-edge selection, mirroring
VERTEX_SIGNS. -/
def vertexSign (k : ℕ) : ℚ × ℚ :=
  match k with
  | 0 => (1, 1)
  | 1 => (-1, 1)
  | 2 => (-1, -1)
  | _ => (1, -1)

/-- Incident-edge endpoint construction of getBoxBoxCollision step 2:
vertex position in world space and the two adjacent-edge features of the
incident box. -/
def mkIncidentPoint (positions : Vec2 × Vec2) (rotations : Mat22 × Mat22)
    (halfSizes : Vec2 × Vec2) (incidentBoxInd incidentEdge pi : ℕ) : ClippedPoint :=
  let pointIndex := (incidentEdge + pi) % 4
  let hs := sel2 incidentBoxInd halfSizes
  let localPosition : Vec2 := ⟨(vertexSign pointIndex).1 * hs.x, (vertexSign pointIndex).2 * hs.y⟩
  { position := sel2 incidentBoxInd positions + sel2 incidentBoxInd rotations * localPosition
    featurePair :=
      (⟨incidentBoxInd, (pointIndex + 3 - 3 * 0) % 4⟩,
       ⟨incidentBoxInd, (pointIndex + 3 - 3 * 1) % 4⟩) }

/-- Emission of one clipped point in getBoxBoxCollision step 4: discard
when outside the reference face, otherwise build the collision point with
canonicalized feature pair. -/
def emitContactPoint (positions : Vec2 × Vec2) (invRotations : Mat22 × Mat22)
    (clipBoxInd : ℕ) (clipNormal minPenetrationDir : Vec2) (clipPlane : PlaneQ)
    (point : ClippedPoint) : Option CollisionPoint :=
  let penetration := -(clipPlane.getDistance point.position)
  if penetration < 0 then none
  else
    let incidentBoxInd := 1 - clipBoxInd
    let resultPosition := point.position + penetration * clipNormal
    let localClip := sel2 clipBoxInd invRotations * (resultPosition - sel2 clipBoxInd positions)
    let localInc := sel2 incidentBoxInd invRotations * (point.position - sel2 incidentBoxInd positions)
    let fp := if featureLT point.featurePair.2 point.featurePair.1
              then (point.featurePair.2, point.featurePair.1)
              else point.featurePair
    some
      { position := resultPosition
        normal := minPenetrationDir
        penetration := penetration
        clipBoxIndex := clipBoxInd
        localPoint0 := if clipBoxInd = 0 then localClip else localInc
        localPoint1 := if clipBoxInd = 0 then localInc else localClip
        localContactNormal := sel2 clipBoxInd invRotations * clipNormal
        featurePair := fp }

/-- Mirrors getBoxBoxCollision: separating-axis scan over the four
candidate axes in order, incident-edge selection, side clipping and
contact emission against the reference face.  Returns the emitted
collision points in order (the empty list stands for the zero count of a
separated pair or a degenerate clip). -/
def getBoxBoxCollision (positions : Vec2 × Vec2) (rotations : Mat22 × Mat22)
    (halfSizes : Vec2 × Vec2) : List CollisionPoint :=
  let invRotations : Mat22 × Mat22 :=
    (rotations.1.getTransposed, rotations.2.getTransposed)
  let centersVec := positions.2 - positions.1
  let abRelRotation := invRotations.1 * rotations.2
  let absRelRotations : Mat22 × Mat22 :=
    (absM abRelRotation, absM abRelRotation.getTransposed)
  let penetrationOf : ℕ → ℕ → ℚ := fun bi ai =>
    let otherBoxProjections :=
      absV (sel2 bi invRotations * centersVec) -
        sel2 (1 - bi) absRelRotations * sel2 (1 - bi) halfSizes
    (sel2 bi halfSizes - otherBoxProjections).comp ai
  let cands : List (ℚ × ℕ × ℕ) :=
    [(penetrationOf 0 0, 0, 0), (penetrationOf 0 1, 0, 1),
     (penetrationOf 1 0, 1, 0), (penetrationOf 1 1, 1, 1)]
  if cands.any (fun c => c.1 < 0) then []
  else
    let best := cands.foldl (fun acc c => if c.1 < acc.1 then c else acc)
      (floatMaxQ, 0, 0)
    let clipBoxInd := best.2.1
    let clipAxisInd := best.2.2
    let dir0 := (sel2 clipBoxInd rotations).col clipAxisInd
    let minPenetrationDir := if dot dir0 centersVec < 0 then -dir0 else dir0
    let clipNormal := if clipBoxInd = 0 then minPenetrationDir else -minPenetrationDir
    let incidentBoxInd := 1 - clipBoxInd
    let incidentDir := -(sel2 incidentBoxInd invRotations * clipNormal)
    let incidentEdge : ℕ :=
      if |incidentDir.x| > |incidentDir.y| then
        (if incidentDir.x > 0 then 3 else 1)
      else
        (if incidentDir.y > 0 then 0 else 2)
    let edge0 := mkIncidentPoint positions rotations halfSizes incidentBoxInd incidentEdge 0
    let edge1 := mkIncidentPoint positions rotations halfSizes incidentBoxInd incidentEdge 1
    let sideAxisInd := 1 - clipAxisInd
    let sideNormal1 := (sel2 clipBoxInd rotations).col sideAxisInd
    let sideOffset := (sel2 clipBoxInd halfSizes).comp sideAxisInd
    let sideClipPlane1 : PlaneQ :=
      ⟨sideNormal1, dot sideNormal1 (sel2 clipBoxInd positions) + sideOffset⟩
    let sideEdge1 := 2 - clipAxisInd
    let sideClipPlane2 : PlaneQ :=
      ⟨-sideNormal1, dot (-sideNormal1) (sel2 clipBoxInd positions) + sideOffset⟩
    let sideEdge2 := (sideEdge1 + 2) % 4
    match clipEdgeByPlane edge0 edge1 sideClipPlane1 clipBoxInd sideEdge1 with
    | none => []
    | some (t0, t1) =>
      match clipEdgeByPlane t0 t1 sideClipPlane2 clipBoxInd sideEdge2 with
      | none => []
      | some (f0, f1) =>
        let clipPlane : PlaneQ :=
          ⟨clipNormal,
           dot clipNormal (sel2 clipBoxInd positions) +
             (sel2 clipBoxInd halfSizes).comp clipAxisInd⟩
        [f0, f1].filterMap
          (emitContactPoint positions invRotations clipBoxInd clipNormal
            minPenetrationDir clipPlane)

/-- Default body used to give List.getD a value at the indices the
pipeline reaches; reachable accesses are always in bounds. -/
def body0 : Body := mkBody ⟨1, 1⟩ 0 0

/-- Contact point inside a manifold, mirroring ContactPoint<2>: the
collision point plus accumulated impulses and solver-derived members. -/
structure ContactPoint where
  point : CollisionPoint
  tangent : Vec2
  offsetA : Vec2
  offsetB : Vec2
  normalMass : ℚ
  tangentMass : ℚ
  normalImpulse : ℚ
  tangentImpulse : ℚ
deriving DecidableEq, Repr

/-- Mirrors the ContactPoint constructor from a collision point: both
accumulated impulses start at zero; the remaining members are left for
prepareToSolve (zero stands for the uninitialized storage). -/
def ContactPoint.ofCollision (p : CollisionPoint) : ContactPoint :=
  { point := p, tangent := 0, offsetA := 0, offsetB := 0
    normalMass := 0, tangentMass := 0, normalImpulse := 0, tangentImpulse := 0 }

/-- Mirrors ContactPoint.updateFrom: copies the accumulated impulses for
warm starting. -/
def ContactPoint.updateFrom (cp other : ContactPoint) : ContactPoint :=
  { cp with normalImpulse := other.normalImpulse
            tangentImpulse := other.tangentImpulse }

/-- Mirrors the free function applyImpulse(Body, localPoint, impulse). -/
def applyImpulseB (body : Body) (localPoint impulse : Vec2) : Body :=
  { body with
    linearVelocity := body.linearVelocity + body.invMass * impulse
    angularVelocity := body.angularVelocity + body.invInertia * crossVV localPoint impulse }

/-- Denominator of getEffectiveMass, written exactly as the source
accumulates invResult. -/
def getEffectiveMassDenom (bA bB : Body) (armA armB direction : Vec2) : ℚ :=
  bA.invMass + bB.invMass +
    dot (crossZV (bA.invInertia * crossVV armA direction) armA +
         crossZV (bB.invInertia * crossVV armB direction) armB) direction

/-- Mirrors getEffectiveMass. -/
def getEffectiveMass (bA bB : Body) (armA armB direction : Vec2) : ℚ :=
  1 / getEffectiveMassDenom bA bB armA armB direction

/-- Mirrors ContactPoint.getVelocityAtContact. -/
def ContactPoint.getVelocityAtContact (cp : ContactPoint) (bA bB : Body) : Vec2 :=
  bB.linearVelocity + crossZV bB.angularVelocity cp.offsetB -
    bA.linearVelocity - crossZV bA.angularVelocity cp.offsetA

/-- Mirrors the private ContactPoint.applyImpulse: minus the impulse to
body A, plus the impulse to body B, at the stored offsets. -/
def ContactPoint.applyImpulsePair (cp : ContactPoint) (bA bB : Body) (impulse : Vec2) :
    Body × Body :=
  (applyImpulseB bA cp.offsetA (-impulse), applyImpulseB bB cp.offsetB impulse)

/-- Mirrors ContactPoint.prepareToSolve: computes offsets, tangent and
effective masses, then applies the warm-starting impulse to both bodies. -/
def ContactPoint.prepareToSolve (cp : ContactPoint) (bA bB : Body) :
    ContactPoint × Body × Body :=
  let offsetA := cp.point.position - bA.position
  let offsetB := cp.point.position - bB.position
  let normalMass := getEffectiveMass bA bB offsetA offsetB cp.point.normal
  let tangent := crossVZ cp.point.normal 1
  let tangentMass := getEffectiveMass bA bB offsetA offsetB tangent
  let cp2 : ContactPoint :=
    { cp with offsetA := offsetA, offsetB := offsetB
              normalMass := normalMass, tangent := tangent, tangentMass := tangentMass }
  let impulse := cp.normalImpulse * cp.point.normal + cp.tangentImpulse * tangent
  let r := cp2.applyImpulsePair bA bB impulse
  (cp2, r.1, r.2)

/-- Mirrors std::clamp(v, lo, hi). -/
def clampQ (v lo hi : ℚ) : ℚ := if v < lo then lo else if hi < v then hi else v

/-- Mirrors ContactPoint.solveVelocities: the projected normal impulse
block followed by the dry friction block clamped by the current
accumulated normal impulse. -/
def ContactPoint.solveVelocities (cp : ContactPoint) (bA bB : Body) (friction : ℚ) :
    ContactPoint × Body × Body :=
  let impulseN := -cp.normalMass * dot (cp.getVelocityAtContact bA bB) cp.point.normal
  let oldN := cp.normalImpulse
  let newN := max 0 (oldN + impulseN)
  let r1 := cp.applyImpulsePair bA bB ((newN - oldN) * cp.point.normal)
  let maxFriction := friction * newN
  let impulseT := -cp.tangentMass * dot (cp.getVelocityAtContact r1.1 r1.2) cp.tangent
  let oldT := cp.tangentImpulse
  let newT := clampQ (oldT + impulseT) (-maxFriction) maxFriction
  let r2 := cp.applyImpulsePair r1.1 r1.2 ((newT - oldT) * cp.tangent)
  ({ cp with normalImpulse := newN, tangentImpulse := newT }, r2.1, r2.2)

/-- Mirrors ContactPoint.getTransformedContact: reconstructs the current
normal, clipped point and penetration from the persisted local-frame
data, with the normal flipped to point from A to B. -/
def ContactPoint.getTransformedContact (cp : ContactPoint) (bA bB : Body) :
    Vec2 × Vec2 × ℚ :=
  let positions := (bA.position, bB.position)
  let rotations := (bA.rot.mat, bB.rot.mat)
  let localPoints := (cp.point.localPoint0, cp.point.localPoint1)
  let ind1 := cp.point.clipBoxIndex
  let ind2 := 1 - ind1
  let clippedPoint := sel2 ind2 positions + sel2 ind2 rotations * sel2 ind2 localPoints
  let normal0 := sel2 ind1 rotations * cp.point.localContactNormal
  let planePoint := sel2 ind1 positions + sel2 ind1 rotations * sel2 ind1 localPoints
  let penetration := dot (planePoint - clippedPoint) normal0
  (if ind1 = 0 then normal0 else -normal0, clippedPoint, penetration)

/-- Mirrors ContactPoint.solvePositions: position-based penetration
correction applied directly to positions and rotation angles.  The
rotation refresh goes through the oracle because setAngle rebuilds the
cached cos/sin matrix. -/
def ContactPoint.solvePositions (cp : ContactPoint) (o : MathOracle) (bA bB : Body) :
    Body × Body :=
  let t := cp.getTransformedContact bA bB
  let normal := t.1
  let planePoint := t.2.1
  let penetration := t.2.2
  let biasFactor := max 0 ((1 / 5 : ℚ) * (penetration - 1 / 1000))
  let offsetA := planePoint - bA.position
  let offsetB := planePoint - bB.position
  let effectiveMass := getEffectiveMass bA bB offsetA offsetB normal
  let penetrationImpulse := max 0 (effectiveMass * biasFactor) * normal
  ({ bA with
      position := bA.position - bA.invMass * penetrationImpulse
      rot := Rot2.setAngle o (bA.rot.getAngle - bA.invInertia * crossVV offsetA penetrationImpulse) },
   { bB with
      position := bB.position + bB.invMass * penetrationImpulse
      rot := Rot2.setAngle o (bB.rot.getAngle + bB.invInertia * crossVV offsetB penetrationImpulse) })

/-- Collision manifold between two bodies, mirroring CollisionManifold<2>;
the list carries the pointsCount live points in order. -/
structure CollisionManifold where
  bodyIndA : ℕ
  bodyIndB : ℕ
  points : List CollisionPoint
deriving DecidableEq, Repr

/-- Persistent contact manifold, mirroring ContactManifold<2>.  The
source references its two bodies by pointer into the world body array;
the indices used here denote the same bodies, which makes the
pointer-rebasing reallocation hook the identity, as the design notes of
the spec allow. -/
structure ContactManifold where
  bodyIndA : ℕ
  bodyIndB : ℕ
  contacts : List ContactPoint
  obsolete : Bool
  friction : ℚ
deriving DecidableEq, Repr

/-- Mirrors the ContactManifold constructor: fresh contacts from the
collision points and the composite friction coefficient, the square root
of the product of the two body frictions (through the oracle). -/
def mkContactManifold (o : MathOracle) (bodies : List Body) (cm : CollisionManifold) :
    ContactManifold :=
  { bodyIndA := cm.bodyIndA
    bodyIndB := cm.bodyIndB
    contacts := cm.points.map ContactPoint.ofCollision
    obsolete := false
    friction := o.sqrt ((bodies.getD cm.bodyIndA body0).friction *
      (bodies.getD cm.bodyIndB body0).friction) }

/-- Mirrors ContactManifold.update: each new collision point becomes a
fresh contact; the first previous contact with an equal feature pair, if
any, donates its accumulated impulses; the contact count becomes the new
point count and the obsolete flag is cleared. -/
def ContactManifold.update (m : ContactManifold) (nm : CollisionManifold) :
    ContactManifold :=
  { m with
    contacts := nm.points.map fun p =>
      let fresh := ContactPoint.ofCollision p
      match m.contacts.find? (fun oc => decide (oc.point.featurePair = p.featurePair)) with
      | some oc => fresh.updateFrom oc
      | none => fresh
    obsolete := false }

/-- One per-contact pass of the manifold loops: reads the two bodies of
the manifold, runs the per-contact operation, writes the bodies back. -/
def solveContactsStep (f : ContactPoint → Body → Body → ContactPoint × Body × Body)
    (indA indB : ℕ) (acc : List ContactPoint × List Body) (cp : ContactPoint) :
    List ContactPoint × List Body :=
  let r := f cp (acc.2.getD indA body0) (acc.2.getD indB body0)
  (acc.1 ++ [r.1], (acc.2.set indA r.2.1).set indB r.2.2)

/-- Contact loop shared by the three ContactManifold solver methods. -/
def ContactManifold.runContacts (m : ContactManifold) (bodies : List Body)
    (f : ContactPoint → Body → Body → ContactPoint × Body × Body) :
    ContactManifold × List Body :=
  let r := m.contacts.foldl (solveContactsStep f m.bodyIndA m.bodyIndB) ([], bodies)
  ({ m with contacts := r.1 }, r.2)

/-- Mirrors ContactManifold.prepareToSolve. -/
def ContactManifold.prepareToSolve (m : ContactManifold) (bodies : List Body) :
    ContactManifold × List Body :=
  m.runContacts bodies ContactPoint.prepareToSolve

/-- Mirrors ContactManifold.solveVelocities, passing the manifold's
composite friction to every contact. -/
def ContactManifold.solveVelocities (m : ContactManifold) (bodies : List Body) :
    ContactManifold × List Body :=
  m.runContacts bodies (fun cp bA bB => cp.solveVelocities bA bB m.friction)

/-- Mirrors ContactManifold.solvePositions. -/
def ContactManifold.solvePositions (m : ContactManifold) (o : MathOracle)
    (bodies : List Body) : ContactManifold × List Body :=
  m.runContacts bodies (fun cp bA bB =>
    let r := cp.solvePositions o bA bB
    (cp, r.1, r.2))

/-- Contact solver state, mirroring ContactSolver<2>: the map from pair
key to manifold index (an association list with unique keys models the
unordered_map) and the dense manifold array whose entries remember their
map key (the source stores the map iterator). -/
structure SolverState where
  contactPairs : List (ℕ × ℕ)
  manifolds : List (ℕ × ContactManifold)
deriving DecidableEq, Repr

/-- Mirrors the 64-bit pair key (indA << 32) | indB; with indB below
2^32 this is indA * 2^32 + indB. -/
def pairKey (indA indB : ℕ) : ℕ := indA * 2 ^ 32 + indB

/-- Default manifold entry used to give List.getD a value; reachable
indices are always in bounds. -/
def emptyManifoldEntry : ℕ × ContactManifold :=
  (0, { bodyIndA := 0, bodyIndB := 0, contacts := [], obsolete := false, friction := 0 })

/-- Mirrors ContactSolver.onCollision: update the manifold found under
the pair key, or append a fresh manifold and its map entry. -/
def solverOnCollision (o : MathOracle) (bodies : List Body) (s : SolverState)
    (cm : CollisionManifold) : SolverState :=
  let key := pairKey cm.bodyIndA cm.bodyIndB
  match s.contactPairs.lookup key with
  | some idx =>
    let entry := s.manifolds.getD idx emptyManifoldEntry
    { s with manifolds := s.manifolds.set idx (entry.1, entry.2.update cm) }
  | none =>
    let index := s.manifolds.length
    { contactPairs := s.contactPairs ++ [(key, index)]
      manifolds := s.manifolds ++ [(key, mkContactManifold o bodies cm)] }

/-- Mirrors ContactSolver.prepareManifoldsUpdate: mark every manifold
obsolete. -/
def solverPrepareManifoldsUpdate (s : SolverState) : SolverState :=
  { s with manifolds := s.manifolds.map fun km => (km.1, { km.2 with obsolete := true }) }

/-- Loop body of ContactSolver.finishManifoldsUpdate: remove the
still-obsolete manifolds by swap-and-pop, erase their map entries and
rewire the moved element's map entry to its new index.  The while loop
terminates because every iteration either shortens the array or advances
the cursor; the structural fuel counts those events and is chosen large
enough by the caller to never run out. -/
def finishManifoldsAux : ℕ → List (ℕ × ℕ) → List (ℕ × ContactManifold) → ℕ →
    List (ℕ × ℕ) × List (ℕ × ContactManifold)
  | 0, pairs, ms, _ => (pairs, ms)
  | fuel + 1, pairs, ms, mi =>
    if h : mi < ms.length then
      if (ms.get ⟨mi, h⟩).2.obsolete then
        let pairs2 := List.eraseP (fun kv => kv.1 == (ms.get ⟨mi, h⟩).1) pairs
        if mi ≠ ms.length - 1 then
          let lastE := (ms.getLast?).getD emptyManifoldEntry
          let ms2 := (ms.set mi lastE).dropLast
          let pairs3 := pairs2.map fun kv => if kv.1 = lastE.1 then (kv.1, mi) else kv
          finishManifoldsAux fuel pairs3 ms2 mi
        else
          finishManifoldsAux fuel pairs2 ms.dropLast mi
      else
        finishManifoldsAux fuel pairs ms (mi + 1)
    else (pairs, ms)

/-- Mirrors ContactSolver.finishManifoldsUpdate.  The fuel bounds the
loop iteration count: each iteration decreases the manifold count minus
the cursor, which starts at the manifold count. -/
def solverFinishManifoldsUpdate (s : SolverState) : SolverState :=
  let r := finishManifoldsAux (s.manifolds.length + 1) s.contactPairs s.manifolds 0
  ⟨r.1, r.2⟩

/-- Manifold loop shared by the solver methods that walk the dense array
in order while threading the body array. -/
def solverFoldManifolds (s : SolverState) (bodies : List Body)
    (f : ContactManifold → List Body → ContactManifold × List Body) :
    SolverState × List Body :=
  let r := s.manifolds.foldl
    (fun acc km =>
      let r2 := f km.2 acc.2
      (acc.1 ++ [(km.1, r2.1)], r2.2))
    ([], bodies)
  ({ s with manifolds := r.1 }, r.2)

/-- Mirrors ContactSolver.prepareToSolve. -/
def solverPrepareToSolve (s : SolverState) (bodies : List Body) :
    SolverState × List Body :=
  solverFoldManifolds s bodies ContactManifold.prepareToSolve

/-- One outer pass of ContactSolver.solveVelocities. -/
def solverSolveVelocitiesOnce (s : SolverState) (bodies : List Body) :
    SolverState × List Body :=
  solverFoldManifolds s bodies ContactManifold.solveVelocities

/-- Mirrors ContactSolver.solveVelocities with its iteration count. -/
def solverSolveVelocities : ℕ → SolverState → List Body → SolverState × List Body
  | 0, s, bodies => (s, bodies)
  | n + 1, s, bodies =>
    let r := solverSolveVelocitiesOnce s bodies
    solverSolveVelocities n r.1 r.2

/-- One outer pass of ContactSolver.solvePositions. -/
def solverSolvePositionsOnce (o : MathOracle) (s : SolverState) (bodies : List Body) :
    SolverState × List Body :=
  solverFoldManifolds s bodies (fun m b => m.solvePositions o b)

/-- Mirrors ContactSolver.solvePositions with its iteration count. -/
def solverSolvePositions (o : MathOracle) :
    ℕ → SolverState → List Body → SolverState × List Body
  | 0, s, bodies => (s, bodies)
  | n + 1, s, bodies =>
    let r := solverSolvePositionsOnce o s bodies
    solverSolvePositions o n r.1 r.2

/-- Physics world, mirroring World<2>.  The endpoints field is the
persistent sweep-and-prune state of the broad phase owned by the
collision system; the AABB array and the active set are rebuilt wholesale
inside every update and therefore live only inside broadPhaseUpdate. -/
structure World where
  gravity : Vec2
  velocityIterations : ℕ
  positionIterations : ℕ
  bodies : List Body
  endpoints : List Endpoint
  solver : SolverState
deriving DecidableEq, Repr

/-- Mirrors the World constructor. -/
def mkWorld (gravity : Vec2) (velocityIterations positionIterations : ℕ) : World :=
  { gravity := gravity
    velocityIterations := velocityIterations
    positionIterations := positionIterations
    bodies := []
    endpoints := []
    solver := ⟨[], []⟩ }

/-- Body value appended by World.addBody: the Body constructor followed
by the position assignment and rotation.setAngle. -/
def mkBodyAt (o : MathOracle) (size : Vec2) (mass friction : ℚ) (position : Vec2)
    (rotationRad : ℚ) : Body :=
  { mkBody size mass friction with position := position, rot := Rot2.setAngle o rotationRad }

/-- Mirrors World.addBody: refuse when the body count is the uint32_t
maximum, leaving the world untouched; otherwise append the new body and
return it.  The body-reallocation hook of the source rebases manifold
pointers after vector growth; with index-based manifold references the
hook is the identity. -/
def World.addBody (w : World) (o : MathOracle) (size : Vec2) (mass friction : ℚ)
    (position : Vec2) (rotationRad : ℚ) : World × Option Body :=
  if w.bodies.length = 2 ^ 32 - 1 then (w, none)
  else
    let b := mkBodyAt o size mass friction position rotationRad
    ({ w with bodies := w.bodies ++ [b] }, some b)

/-- Mirrors World.clear: drop all bodies and clear the solver's manifold
cache.  The broad-phase endpoint list is not touched. -/
def World.clear (w : World) : World :=
  { w with bodies := [], solver := ⟨[], []⟩ }

/-- Mirrors World.applyForces: gravity masked by the static flag. -/
def applyForcesPhase (dt : ℚ) (w : World) : World :=
  { w with bodies := w.bodies.map fun b =>
      { b with linearVelocity :=
          b.linearVelocity + ((if b.isStatic then (0 : ℚ) else 1) * dt) * w.gravity } }

/-- Collision-and-manifolds phase of World.doStep: mark the manifolds
obsolete, run the broad phase, run the narrow phase on every reported
pair and deliver nonempty manifolds to the solver callback, then remove
the still-obsolete manifolds. -/
def manifoldsUpdatePhase (o : MathOracle) (w : World) : World :=
  let bp := broadPhaseUpdate w.bodies w.endpoints
  let solver2 := bp.2.foldl
    (fun s p =>
      let bodyA := w.bodies.getD p.1 body0
      let bodyB := w.bodies.getD p.2 body0
      let points := getBoxBoxCollision (bodyA.position, bodyB.position)
        (bodyA.rot.mat, bodyB.rot.mat) (bodyA.halfSize, bodyB.halfSize)
      if points = [] then s
      else solverOnCollision o w.bodies s ⟨p.1, p.2, points⟩)
    (solverPrepareManifoldsUpdate w.solver)
  { w with endpoints := bp.1, solver := solverFinishManifoldsUpdate solver2 }

/-- Warm-start phase of World.doStep. -/
def prepareToSolvePhase (w : World) : World :=
  let r := solverPrepareToSolve w.solver w.bodies
  { w with solver := r.1, bodies := r.2 }

/-- Velocity-iteration phase of World.doStep. -/
def solveVelocitiesPhase (w : World) : World :=
  let r := solverSolveVelocities w.velocityIterations w.solver w.bodies
  { w with solver := r.1, bodies := r.2 }

/-- Mirrors World.integratePositions: advance positions by the linear
velocities and rotation angles by the angular velocities. -/
def integratePositionsPhase (o : MathOracle) (dt : ℚ) (w : World) : World :=
  { w with bodies := w.bodies.map fun b =>
      { b with position := b.position + dt * b.linearVelocity
               rot := Rot2.setAngle o (b.rot.getAngle + dt * b.angularVelocity) } }

/-- Position-iteration phase of World.doStep. -/
def solvePositionsPhase (o : MathOracle) (w : World) : World :=
  let r := solverSolvePositions o w.positionIterations w.solver w.bodies
  { w with solver := r.1, bodies := r.2 }

/-- Mirrors World.doStep: forces, manifold refresh through broad and
narrow phase, warm start, velocity iterations, position integration and
finally the position iterations, in the source's order. -/
def World.doStep (w : World) (o : MathOracle) (dt : ℚ) : World :=
  let w1 := applyForcesPhase dt w
  let w2 := manifoldsUpdatePhase o w1
  let w3 := prepareToSolvePhase w2
  let w4 := solveVelocitiesPhase w3
  let w5 := integratePositionsPhase o dt w4
  solvePositionsPhase o w5

/-- Derived-field invariant established by the Body constructor: the
inverse mass and inverse inertia are the guarded reciprocals of a
non-negative mass and inertia. -/
def Body.InvWF (b : Body) : Prop :=
  0 ≤ b.mass ∧ b.invMass = (if b.mass = 0 then 0 else 1 / b.mass) ∧
    0 ≤ b.inertia ∧ b.invInertia = getInvInertia b.inertia

instance (b : Body) : Decidable b.InvWF := by unfold Body.InvWF; infer_instance

/-- State of a static body as World.addBody creates it and every phase of
the step preserves it: zero mass and inverse terms, zero velocities, and
a cached rotation matrix consistent with the stored angle. -/
def StaticWF (o : MathOracle) (b : Body) : Prop :=
  b.mass = 0 ∧ b.invMass = 0 ∧ b.invInertia = 0 ∧
    b.linearVelocity = 0 ∧ b.angularVelocity = 0 ∧
    b.rot.mat = o.rotationMat b.rot.angle

/-- Immutable part of a body: the fields the Body class declares const. -/
def Body.shape (b : Body) : Vec2 × ℚ × ℚ × ℚ × ℚ × ℚ :=
  (b.halfSize, b.mass, b.invMass, b.inertia, b.invInertia, b.friction)

/-- Closed-interval AABB overlap on both axes, modelled from the claim
wording: world AABBs overlap on every axis. -/
def aabbOverlapSpec (a b : Aabb) : Prop :=
  a.min.x ≤ b.max.x ∧ b.min.x ≤ a.max.x ∧ a.min.y ≤ b.max.y ∧ b.min.y ≤ a.max.y

instance (a b : Aabb) : Decidable (aabbOverlapSpec a b) := by
  unfold aabbOverlapSpec; infer_instance

/-- Overlap of the x intervals as the sweep actually detects it: strict
on both sides, so intervals that merely touch are not overlapping. -/
def sweepOverlapX (a b : Aabb) : Prop :=
  a.min.x < b.max.x ∧ b.min.x < a.max.x

instance (a b : Aabb) : Decidable (sweepOverlapX a b) := by
  unfold sweepOverlapX; infer_instance

/-- Characterization of the pairs the broad phase reports. -/
def reportedPair (bodies : List Body) (i j : ℕ) : Prop :=
  i < j ∧ j < bodies.length ∧
    ¬ (staticAt bodies i ∧ staticAt bodies j) ∧
    sweepOverlapX (aabbAt bodies i) (aabbAt bodies j) ∧
    yOverlap (aabbAt bodies i) (aabbAt bodies j)

instance (bodies : List Body) (i j : ℕ) : Decidable (reportedPair bodies i j) := by
  unfold reportedPair; infer_instance

/-- Tag of an endpoint: its body index and start flag. -/
def epTag (e : Endpoint) : ℕ × Bool := (e.index, e.isStart)

/-- Canonical tag multiset of a well-formed endpoint list over m bodies:
one start and one end per index. -/
def canonicalTags (m : ℕ) : List (ℕ × Bool) :=
  (List.range m).flatMap fun i => [(i, true), (i, false)]

/-- Structural invariant of the persistent endpoint list: its tags are a
permutation of one start and one end per body index.  It holds for the
empty list of a fresh broad phase and every update reestablishes it. -/
def EndpointsWF (es : List Endpoint) (m : ℕ) : Prop :=
  (es.map epTag).Perm (canonicalTags m)

/-- Nondegeneracy of a body for the sweep: positive half sizes and a
rotation matrix whose first row is nonzero, which every unit-column
rotation matrix satisfies; this makes the world AABB wider than a point
along x. -/
def bodyNondeg (b : Body) : Prop :=
  0 < b.halfSize.x ∧ 0 < b.halfSize.y ∧
    (b.rot.mat.col1.x ≠ 0 ∨ b.rot.mat.col2.x ≠ 0)

instance (b : Body) : Decidable (bodyNondeg b) := by
  unfold bodyNondeg; infer_instance

/-- Identity rotation matrix, the matrix of angle zero. -/
def idMat : Mat22 := ⟨⟨1, 0⟩, ⟨0, 1⟩⟩

/-- Concrete oracle for witnesses: every angle maps to the identity
matrix (exact for angle zero, the only angle the witnesses use) and
square root is the identity function. -/
def oracleId : MathOracle := ⟨fun _ => idMat, fun x => x⟩

/-- Default collision point for List.getD. -/
def cp0 : CollisionPoint :=
  { position := 0, normal := 0, penetration := 0, clipBoxIndex := 0
    localPoint0 := 0, localPoint1 := 0, localContactNormal := 0
    featurePair := (⟨0, 0⟩, ⟨0, 0⟩) }

/-- Default contact point for List.getD. -/
def ct0 : ContactPoint := ContactPoint.ofCollision cp0

/-- Concrete world with one static floor body, used by witnesses. -/
def floorWorld : World :=
  ((mkWorld ⟨0, -10⟩ 1 0).addBody oracleId ⟨2, 2⟩ 0 (1 / 2) ⟨0, 0⟩ 0).1

/-- The floor world after one step; its broad-phase endpoint list is
populated. -/
def steppedWorld : World := floorWorld.doStep oracleId 1

/-- Concrete static body in the state addBody establishes, written with
its derived fields already evaluated. -/
def staticBody : Body :=
  { halfSize := ⟨1, 1⟩, mass := 0, invMass := 0, inertia := 0, invInertia := 0
    friction := 0, position := 0, rot := ⟨0, idMat⟩
    linearVelocity := 0, angularVelocity := 0 }

/-- Concrete world holding one static body, used by witnesses. -/
def staticWorld : World :=
  { gravity := ⟨0, -10⟩, velocityIterations := 1, positionIterations := 1
    bodies := [staticBody], endpoints := [], solver := ⟨[], []⟩ }

/-- Concrete dynamic unit box at the origin, with literal fields. -/
def boxA : Body :=
  { halfSize := ⟨1, 1⟩, mass := 1, invMass := 1, inertia := 1, invInertia := 1
    friction := 0, position := ⟨0, 0⟩, rot := ⟨0, idMat⟩
    linearVelocity := 0, angularVelocity := 0 }

/-- Concrete dynamic unit box exactly touching boxA on the x axis. -/
def boxB : Body := { boxA with position := ⟨2, 0⟩ }

/-- Body array whose two AABBs touch exactly at x = 1. -/
def touchBodies : List Body := [boxA, boxB]

/-- Invariant of the sweep loop over a processed event prefix P: the
active set is duplicate-free and holds exactly the bodies whose start
event has been processed but whose end event has not; the slot mapping
locates every active body inside the active array; and the reported pairs
are exactly the ordered pairs of started bodies that pass the static and
y-axis filters and overlap strictly on x. -/
def SweepInv (bodies : List Body) (P : List Endpoint) (st : SweepState) : Prop :=
  st.active.Nodup ∧
  (∀ b ∈ st.active, st.mapping b < st.active.length ∧
    st.active.getD (st.mapping b) 0 = b) ∧
  (∀ b : ℕ, b ∈ st.active ↔
    ((b, true) ∈ P.map epTag ∧ (b, false) ∉ P.map epTag)) ∧
  (∀ p : ℕ × ℕ, p ∈ st.pairs ↔
    (p.1 < p.2 ∧ (p.1, true) ∈ P.map epTag ∧ (p.2, true) ∈ P.map epTag ∧
      ¬ (staticAt bodies p.1 ∧ staticAt bodies p.2) ∧
      yOverlap (aabbAt bodies p.1) (aabbAt bodies p.2) ∧
      sweepOverlapX (aabbAt bodies p.1) (aabbAt bodies p.2))) ∧
  st.pairs.Nodup

/-! List access helper lemmas shared by the proofs. -/

theorem getD_set {α : Type} (l : List α) (i k : ℕ) (v d : α) :
    (l.set i v).getD k d = if i = k ∧ k < l.length then v else l.getD k d := by
  by_cases h1 : i = k
  · subst h1
    by_cases h2 : i < l.length
    · simp [List.getD_eq_getElem?_getD, List.getElem?_set, h2]
    · simp [List.getD_eq_getElem?_getD, List.getElem?_set, h2,
        List.getElem?_eq_none (le_of_not_lt h2)]
  · simp [List.getD_eq_getElem?_getD, List.getElem?_set, h1]

theorem set_getD_self {α : Type} (l : List α) (k : ℕ) (d : α) :
    l.set k (l.getD k d) = l := by
  by_cases h : k < l.length
  · apply List.ext_getElem?
    intro n
    rw [List.getElem?_set]
    by_cases h2 : k = n
    · subst h2
      simp [h, List.getD_eq_getElem l d h, List.getElem?_eq_getElem h]
    · simp [h2]
  · exact List.set_eq_of_length_le (le_of_not_lt h)

theorem map_getD_lt {α β : Type} (f : α → β) (l : List α) (k : ℕ) (d : α) (d2 : β)
    (h : k < l.length) : (l.map f).getD k d2 = f (l.getD k d) := by
  rw [List.getD_eq_getElem l d h, List.getD_eq_getElem _ d2 (by simpa using h)]
  exact List.getElem_map f

theorem getD_default_of_le {α : Type} (l : List α) (k : ℕ) (d : α)
    (h : l.length ≤ k) : l.getD k d = d := by
  simp [List.getD_eq_getElem?_getD, List.getElem?_eq_none h]

/-! Claim C8: addBody capacity behavior. -/

/-- C8: addBody returns absence exactly when the body count equals
2^32 - 1 and then mutates nothing; otherwise it appends exactly one body
built from the given size, mass, friction, position and rotation, leaves
every other world component unchanged, and returns the new body. -/
theorem claim_C8 (w : World) (o : MathOracle) (size : Vec2) (mass fric : ℚ)
    (pos : Vec2) (rotRad : ℚ) :
    ((w.addBody o size mass fric pos rotRad).2 = none ↔
      w.bodies.length = 2 ^ 32 - 1) ∧
    (w.bodies.length = 2 ^ 32 - 1 → (w.addBody o size mass fric pos rotRad).1 = w) ∧
    (w.bodies.length ≠ 2 ^ 32 - 1 →
      (w.addBody o size mass fric pos rotRad).1 =
        { w with bodies := w.bodies ++ [mkBodyAt o size mass fric pos rotRad] } ∧
      (w.addBody o size mass fric pos rotRad).2 =
        some (mkBodyAt o size mass fric pos rotRad)) := by
  have h32 : (2 : ℕ) ^ 32 - 1 = 4294967295 := by norm_num
  simp only [h32]
  unfold World.addBody
  simp only [h32]
  by_cases h : w.bodies.length = 4294967295 <;> simp [h]

/-- Witness for C8 at the empty world: the append branch. -/
theorem claim_C8_witness :
    ((mkWorld ⟨0, -10⟩ 1 0).addBody oracleId ⟨1, 1⟩ 1 0 ⟨0, 0⟩ 0).2 =
      some (mkBodyAt oracleId ⟨1, 1⟩ 1 0 ⟨0, 0⟩ 0) :=
  ((claim_C8 (mkWorld ⟨0, -10⟩ 1 0) oracleId ⟨1, 1⟩ 1 0 ⟨0, 0⟩ 0).2.2
    (by decide)).2

/-! Claim C9: the effective-mass denominator is positive for pairs with
at least one dynamic body. -/

theorem InvWF_invMass_nonneg {b : Body} (h : b.InvWF) : 0 ≤ b.invMass := by
  rw [h.2.1]
  split_ifs with hm
  · exact le_refl 0
  · have : 0 < b.mass := lt_of_le_of_ne h.1 (Ne.symm hm)
    positivity

theorem InvWF_invMass_pos {b : Body} (h : b.InvWF) (hm : ¬ b.mass = 0) :
    0 < b.invMass := by
  rw [h.2.1, if_neg hm]
  have : 0 < b.mass := lt_of_le_of_ne h.1 (Ne.symm hm)
  positivity

theorem InvWF_invInertia_nonneg {b : Body} (h : b.InvWF) : 0 ≤ b.invInertia := by
  rw [h.2.2.2]
  unfold getInvInertia
  split_ifs with hi
  · exact le_refl 0
  · have : 0 < b.inertia := lt_of_le_of_ne h.2.2.1 (Ne.symm hi)
    positivity

theorem mkBody_InvWF (size : Vec2) (mass fric : ℚ) (h : 0 ≤ mass) :
    (mkBody size mass fric).InvWF := by
  refine ⟨h, rfl, ?_, rfl⟩
  show 0 ≤ getBoxInertia size mass
  unfold getBoxInertia Vec2.lengthSquared
  have h2 : 0 ≤ size.x * size.x + size.y * size.y :=
    add_nonneg (mul_self_nonneg _) (mul_self_nonneg _)
  exact div_nonneg (mul_nonneg h h2) (by norm_num)

/-- C9: for a contact pair in which at least one body is dynamic (the
broad phase never emits static-static pairs), the denominator
accumulated by getEffectiveMass is strictly positive for every choice of
arms and direction, so the final division is well defined.  The
hypotheses are the derived-field invariant the Body constructor
establishes. -/
theorem claim_C9 (bA bB : Body) (armA armB direction : Vec2)
    (hA : bA.InvWF) (hB : bB.InvWF) (hdyn : ¬ (bA.isStatic ∧ bB.isStatic)) :
    0 < getEffectiveMassDenom bA bB armA armB direction := by
  have key : getEffectiveMassDenom bA bB armA armB direction =
      bA.invMass + bB.invMass +
        (bA.invInertia * (crossVV armA direction * crossVV armA direction) +
         bB.invInertia * (crossVV armB direction * crossVV armB direction)) := by
    unfold getEffectiveMassDenom crossVV crossZV dot
    simp only [Vec2.add_x, Vec2.add_y]
    ring
  rw [key]
  have hiA : 0 ≤ bA.invInertia * (crossVV armA direction * crossVV armA direction) :=
    mul_nonneg (InvWF_invInertia_nonneg hA) (mul_self_nonneg _)
  have hiB : 0 ≤ bB.invInertia * (crossVV armB direction * crossVV armB direction) :=
    mul_nonneg (InvWF_invInertia_nonneg hB) (mul_self_nonneg _)
  unfold Body.isStatic at hdyn
  by_cases hm : bA.mass = 0
  · have hmb : ¬ bB.mass = 0 := fun hb => hdyn ⟨hm, hb⟩
    have h1 := InvWF_invMass_nonneg hA
    have h2 := InvWF_invMass_pos hB hmb
    linarith
  · have h1 := InvWF_invMass_pos hA hm
    have h2 := InvWF_invMass_nonneg hB
    linarith

/-- Witness for C9: one dynamic unit box against a static one. -/
theorem claim_C9_witness :
    0 < getEffectiveMassDenom (mkBody ⟨1, 1⟩ 1 0) (mkBody ⟨1, 1⟩ 0 0)
      ⟨1, 0⟩ ⟨0, 1⟩ ⟨1, 0⟩ :=
  claim_C9 (mkBody ⟨1, 1⟩ 1 0) (mkBody ⟨1, 1⟩ 0 0) ⟨1, 0⟩ ⟨0, 1⟩ ⟨1, 0⟩
    (by norm_num [Body.InvWF, mkBody, getBoxInertia, getInvInertia, Vec2.lengthSquared])
    (by norm_num [Body.InvWF, mkBody, getBoxInertia, getInvInertia, Vec2.lengthSquared])
    (by norm_num [Body.isStatic, mkBody])

/-! Claim C2: manifold update preserves impulses of matching feature
pairs and zeroes the rest. -/

/-- C2: after ContactManifold.update, the contact count is the new
manifold's point count, the obsolete flag is cleared, each new contact
with a feature-pair match among the previous contacts carries over that
matching contact's accumulated impulses, and each new contact without a
match has both accumulated impulses zero. -/
theorem claim_C2 (m : ContactManifold) (nm : CollisionManifold) :
    (m.update nm).contacts.length = nm.points.length ∧
    (m.update nm).obsolete = false ∧
    ∀ i, i < nm.points.length →
      ((∃ oc ∈ m.contacts,
          oc.point.featurePair = (nm.points.getD i cp0).featurePair) →
        ∃ oc ∈ m.contacts,
          oc.point.featurePair = (nm.points.getD i cp0).featurePair ∧
          ((m.update nm).contacts.getD i ct0).normalImpulse = oc.normalImpulse ∧
          ((m.update nm).contacts.getD i ct0).tangentImpulse = oc.tangentImpulse) ∧
      ((∀ oc ∈ m.contacts,
          oc.point.featurePair ≠ (nm.points.getD i cp0).featurePair) →
        ((m.update nm).contacts.getD i ct0).normalImpulse = 0 ∧
        ((m.update nm).contacts.getD i ct0).tangentImpulse = 0) := by
  refine ⟨by simp [ContactManifold.update], rfl, ?_⟩
  intro i hi
  have hmap : (m.update nm).contacts.getD i ct0 =
      (fun p =>
        let fresh := ContactPoint.ofCollision p
        match m.contacts.find?
            (fun oc => decide (oc.point.featurePair = p.featurePair)) with
        | some oc => fresh.updateFrom oc
        | none => fresh) (nm.points.getD i cp0) := by
    unfold ContactManifold.update
    exact map_getD_lt _ nm.points i cp0 ct0 hi
  rcases hfind : m.contacts.find?
      (fun oc => decide (oc.point.featurePair = (nm.points.getD i cp0).featurePair))
    with _ | oc
  · constructor
    · rintro ⟨oc, hoc, heq⟩
      exact absurd (by simpa using heq) (by simpa using List.find?_eq_none.mp hfind oc hoc)
    · intro _
      rw [hmap]
      simp only [hfind]
      exact ⟨rfl, rfl⟩
  · constructor
    · intro _
      refine ⟨oc, List.mem_of_find?_eq_some hfind, ?_, ?_, ?_⟩
      · simpa using List.find?_some hfind
      · rw [hmap]; simp only [hfind]; rfl
      · rw [hmap]; simp only [hfind]; rfl
    · intro hnone
      have h1 := List.find?_some hfind
      have h2 := List.mem_of_find?_eq_some hfind
      exact absurd (by simpa using h1) (hnone oc h2)

/-- Witness for C2 at a concrete update: a manifold with no previous
contacts receives a one-point manifold; the fresh contact starts with
zero impulses. -/
theorem claim_C2_witness :
    (((ContactManifold.mk 0 1 [] false 0).update
      (CollisionManifold.mk 0 1 [cp0])).contacts.getD 0 ct0).normalImpulse = 0 ∧
    (((ContactManifold.mk 0 1 [] false 0).update
      (CollisionManifold.mk 0 1 [cp0])).contacts.getD 0 ct0).tangentImpulse = 0 := by
  have h := claim_C2 (ContactManifold.mk 0 1 [] false 0) (CollisionManifold.mk 0 1 [cp0])
  exact (h.2.2 0 (by norm_num)).2 (by intro oc hoc; exact absurd hoc (List.not_mem_nil oc))

/-! Claims C4 and C5: per-iteration impulse bounds of the velocity
solver. -/

theorem runContacts_mem {f : ContactPoint → Body → Body → ContactPoint × Body × Body}
    (m : ContactManifold) (bodies : List Body) {P : ContactPoint → Prop}
    (hf : ∀ cp bA bB, P (f cp bA bB).1) :
    ∀ cp ∈ (m.runContacts bodies f).1.contacts, P cp := by
  unfold ContactManifold.runContacts
  suffices h : ∀ (l : List ContactPoint) (acc : List ContactPoint × List Body),
      (∀ c ∈ acc.1, P c) →
      ∀ c ∈ (l.foldl (solveContactsStep f m.bodyIndA m.bodyIndB) acc).1, P c by
    intro cp hcp
    exact h m.contacts ([], bodies) (by simp) cp hcp
  intro l
  induction l with
  | nil => intro acc hacc c hc; exact hacc c hc
  | cons hd tl ih =>
    intro acc hacc c hc
    refine ih _ ?_ c hc
    intro c2 hc2
    unfold solveContactsStep at hc2
    rcases List.mem_append.mp hc2 with h | h
    · exact hacc _ h
    · rw [List.mem_singleton] at h
      subst h
      exact hf _ _ _

theorem solveVelocities_normal_nonneg (cp : ContactPoint) (bA bB : Body) (fr : ℚ) :
    0 ≤ (cp.solveVelocities bA bB fr).1.normalImpulse := by
  unfold ContactPoint.solveVelocities
  exact le_max_left _ _

theorem solveVelocities_friction_cone (cp : ContactPoint) (bA bB : Body) (fr : ℚ)
    (h : 0 ≤ fr) :
    |(cp.solveVelocities bA bB fr).1.tangentImpulse| ≤
      fr * (cp.solveVelocities bA bB fr).1.normalImpulse := by
  unfold ContactPoint.solveVelocities clampQ
  dsimp only
  set newN := max 0 (cp.normalImpulse +
    -cp.normalMass * dot (cp.getVelocityAtContact bA bB) cp.point.normal) with hN
  have hN0 : 0 ≤ newN := le_max_left _ _
  have hmf : 0 ≤ fr * newN := mul_nonneg h hN0
  split_ifs with h1 h2
  · rw [abs_neg, abs_of_nonneg hmf]
  · rw [abs_of_nonneg hmf]
  · push_neg at h1 h2
    exact abs_le.mpr ⟨h1, h2⟩

/-- C4: after every per-contact velocity solve of a manifold pass, every
resulting contact satisfies the friction cone: the absolute accumulated
tangent impulse is at most the manifold's friction coefficient times the
current accumulated normal impulse.  The hypotheses mirror the
solveVelocities assertion 0 <= friction <= 1; the manifold constructor
stores the composite coefficient sqrt of the product of the two body
frictions, which lies in that range for body frictions in the unit
interval. -/
theorem claim_C4 (m : ContactManifold) (bodies : List Body)
    (h0 : 0 ≤ m.friction) (h1 : m.friction ≤ 1) :
    ∀ cp ∈ (m.solveVelocities bodies).1.contacts,
      |cp.tangentImpulse| ≤ m.friction * cp.normalImpulse := by
  unfold ContactManifold.solveVelocities
  exact runContacts_mem m bodies
    (fun cp bA bB => solveVelocities_friction_cone cp bA bB m.friction h0)

/-- Witness manifold for C4: one zero-impulse contact and friction one
half. -/
def witnessManifold : ContactManifold :=
  { bodyIndA := 0, bodyIndB := 1, contacts := [ct0], obsolete := false
    friction := 1 / 2 }

/-- Witness for C4 at a concrete manifold and its first contact. -/
theorem claim_C4_witness :
    |((witnessManifold.solveVelocities []).1.contacts.getD 0 ct0).tangentImpulse| ≤
      witnessManifold.friction *
        ((witnessManifold.solveVelocities []).1.contacts.getD 0 ct0).normalImpulse := by
  have hlen : 0 < (witnessManifold.solveVelocities []).1.contacts.length := by decide
  have hmem : (witnessManifold.solveVelocities []).1.contacts.getD 0 ct0 ∈
      (witnessManifold.solveVelocities []).1.contacts := by
    rw [List.getD_eq_getElem _ _ hlen]
    exact List.getElem_mem hlen
  exact claim_C4 witnessManifold [] (by norm_num [witnessManifold])
    (by norm_num [witnessManifold]) _ hmem

/-- C5: the accumulated normal impulse starts at zero when a contact is
constructed from a collision point, and after every per-contact velocity
solve of a manifold pass every resulting contact has a non-negative
accumulated normal impulse, because the update clamps the accumulated
value at zero. -/
theorem claim_C5 :
    (∀ p : CollisionPoint, (ContactPoint.ofCollision p).normalImpulse = 0) ∧
    (∀ (m : ContactManifold) (bodies : List Body),
      ∀ cp ∈ (m.solveVelocities bodies).1.contacts, 0 ≤ cp.normalImpulse) := by
  refine ⟨fun p => rfl, fun m bodies => ?_⟩
  unfold ContactManifold.solveVelocities
  exact runContacts_mem m bodies
    (fun cp bA bB => solveVelocities_normal_nonneg cp bA bB m.friction)

/-! Projection lemmas of the step phases: the configuration fields of
the world are never touched. -/

@[simp] theorem applyForcesPhase_gravity (dt : ℚ) (w : World) :
    (applyForcesPhase dt w).gravity = w.gravity := rfl

@[simp] theorem applyForcesPhase_velocityIterations (dt : ℚ) (w : World) :
    (applyForcesPhase dt w).velocityIterations = w.velocityIterations := rfl

@[simp] theorem applyForcesPhase_positionIterations (dt : ℚ) (w : World) :
    (applyForcesPhase dt w).positionIterations = w.positionIterations := rfl

@[simp] theorem applyForcesPhase_endpoints (dt : ℚ) (w : World) :
    (applyForcesPhase dt w).endpoints = w.endpoints := rfl

@[simp] theorem applyForcesPhase_solver (dt : ℚ) (w : World) :
    (applyForcesPhase dt w).solver = w.solver := rfl

@[simp] theorem manifoldsUpdatePhase_gravity (o : MathOracle) (w : World) :
    (manifoldsUpdatePhase o w).gravity = w.gravity := rfl

@[simp] theorem manifoldsUpdatePhase_velocityIterations (o : MathOracle) (w : World) :
    (manifoldsUpdatePhase o w).velocityIterations = w.velocityIterations := rfl

@[simp] theorem manifoldsUpdatePhase_positionIterations (o : MathOracle) (w : World) :
    (manifoldsUpdatePhase o w).positionIterations = w.positionIterations := rfl

@[simp] theorem manifoldsUpdatePhase_bodies (o : MathOracle) (w : World) :
    (manifoldsUpdatePhase o w).bodies = w.bodies := rfl

@[simp] theorem prepareToSolvePhase_gravity (w : World) :
    (prepareToSolvePhase w).gravity = w.gravity := rfl

@[simp] theorem prepareToSolvePhase_velocityIterations (w : World) :
    (prepareToSolvePhase w).velocityIterations = w.velocityIterations := rfl

@[simp] theorem prepareToSolvePhase_positionIterations (w : World) :
    (prepareToSolvePhase w).positionIterations = w.positionIterations := rfl

@[simp] theorem prepareToSolvePhase_endpoints (w : World) :
    (prepareToSolvePhase w).endpoints = w.endpoints := rfl

@[simp] theorem solveVelocitiesPhase_gravity (w : World) :
    (solveVelocitiesPhase w).gravity = w.gravity := rfl

@[simp] theorem solveVelocitiesPhase_velocityIterations (w : World) :
    (solveVelocitiesPhase w).velocityIterations = w.velocityIterations := rfl

@[simp] theorem solveVelocitiesPhase_positionIterations (w : World) :
    (solveVelocitiesPhase w).positionIterations = w.positionIterations := rfl

@[simp] theorem solveVelocitiesPhase_endpoints (w : World) :
    (solveVelocitiesPhase w).endpoints = w.endpoints := rfl

@[simp] theorem integratePositionsPhase_gravity (o : MathOracle) (dt : ℚ) (w : World) :
    (integratePositionsPhase o dt w).gravity = w.gravity := rfl

@[simp] theorem integratePositionsPhase_velocityIterations (o : MathOracle) (dt : ℚ)
    (w : World) :
    (integratePositionsPhase o dt w).velocityIterations = w.velocityIterations := rfl

@[simp] theorem integratePositionsPhase_positionIterations (o : MathOracle) (dt : ℚ)
    (w : World) :
    (integratePositionsPhase o dt w).positionIterations = w.positionIterations := rfl

@[simp] theorem integratePositionsPhase_endpoints (o : MathOracle) (dt : ℚ) (w : World) :
    (integratePositionsPhase o dt w).endpoints = w.endpoints := rfl

@[simp] theorem integratePositionsPhase_solver (o : MathOracle) (dt : ℚ) (w : World) :
    (integratePositionsPhase o dt w).solver = w.solver := rfl

@[simp] theorem solvePositionsPhase_gravity (o : MathOracle) (w : World) :
    (solvePositionsPhase o w).gravity = w.gravity := rfl

@[simp] theorem solvePositionsPhase_velocityIterations (o : MathOracle) (w : World) :
    (solvePositionsPhase o w).velocityIterations = w.velocityIterations := rfl

@[simp] theorem solvePositionsPhase_positionIterations (o : MathOracle) (w : World) :
    (solvePositionsPhase o w).positionIterations = w.positionIterations := rfl

@[simp] theorem solvePositionsPhase_endpoints (o : MathOracle) (w : World) :
    (solvePositionsPhase o w).endpoints = w.endpoints := rfl

/-! Claim C6: position integration precedes the position solver inside
doStep. -/

/-- C6: doStep is exactly the composition in which integratePositions
runs after the velocity iterations and before solvePositions, so the
position solver receives the already-advanced poses: its input world is
the integratePositionsPhase image of the post-velocity world. -/
theorem claim_C6 (w : World) (o : MathOracle) (dt : ℚ) :
    w.doStep o dt =
      solvePositionsPhase o
        (integratePositionsPhase o dt
          (solveVelocitiesPhase
            (prepareToSolvePhase
              (manifoldsUpdatePhase o (applyForcesPhase dt w))))) ∧
    (w.doStep o dt).bodies =
      (solverSolvePositions o w.positionIterations
        (integratePositionsPhase o dt
          (solveVelocitiesPhase
            (prepareToSolvePhase
              (manifoldsUpdatePhase o (applyForcesPhase dt w))))).solver
        (integratePositionsPhase o dt
          (solveVelocitiesPhase
            (prepareToSolvePhase
              (manifoldsUpdatePhase o (applyForcesPhase dt w))))).bodies).2 := by
  have hp : (integratePositionsPhase o dt
      (solveVelocitiesPhase
        (prepareToSolvePhase
          (manifoldsUpdatePhase o (applyForcesPhase dt w))))).positionIterations =
      w.positionIterations := by
    simp
  refine ⟨rfl, ?_⟩
  show (solvePositionsPhase o
      (integratePositionsPhase o dt
        (solveVelocitiesPhase
          (prepareToSolvePhase
            (manifoldsUpdatePhase o (applyForcesPhase dt w)))))).bodies = _
  simp only [solvePositionsPhase]
  rw [hp]

/-! Body-preservation lemmas for the static-invariance and frame-effect
claims. -/

theorem applyImpulseB_static {b : Body} (p i : Vec2)
    (h1 : b.invMass = 0) (h2 : b.invInertia = 0) : applyImpulseB b p i = b := by
  have e1 : b.linearVelocity + b.invMass * i = b.linearVelocity := by
    rw [h1]; simp
  have e2 : b.angularVelocity + b.invInertia * crossVV p i = b.angularVelocity := by
    rw [h2]; simp
  unfold applyImpulseB
  rw [e1, e2]

theorem prepareToSolve_staticA (cp : ContactPoint) (bA bB : Body)
    (h1 : bA.invMass = 0) (h2 : bA.invInertia = 0) :
    (cp.prepareToSolve bA bB).2.1 = bA :=
  applyImpulseB_static _ _ h1 h2

theorem prepareToSolve_staticB (cp : ContactPoint) (bA bB : Body)
    (h1 : bB.invMass = 0) (h2 : bB.invInertia = 0) :
    (cp.prepareToSolve bA bB).2.2 = bB :=
  applyImpulseB_static _ _ h1 h2

theorem solveVelocities_staticA (cp : ContactPoint) (bA bB : Body) (fr : ℚ)
    (h1 : bA.invMass = 0) (h2 : bA.invInertia = 0) :
    (cp.solveVelocities bA bB fr).2.1 = bA := by
  unfold ContactPoint.solveVelocities ContactPoint.applyImpulsePair
  dsimp only
  rw [applyImpulseB_static _ _ h1 h2, applyImpulseB_static _ _ h1 h2]

theorem solveVelocities_staticB (cp : ContactPoint) (bA bB : Body) (fr : ℚ)
    (h1 : bB.invMass = 0) (h2 : bB.invInertia = 0) :
    (cp.solveVelocities bA bB fr).2.2 = bB := by
  unfold ContactPoint.solveVelocities ContactPoint.applyImpulsePair
  dsimp only
  rw [applyImpulseB_static _ _ h1 h2, applyImpulseB_static _ _ h1 h2]

theorem setAngle_self (o : MathOracle) (r : Rot2)
    (h : r.mat = o.rotationMat r.angle) : Rot2.setAngle o r.angle = r := by
  unfold Rot2.setAngle
  rw [← h]

theorem solvePositions_staticA (o : MathOracle) (cp : ContactPoint) (bA bB : Body)
    (h1 : bA.invMass = 0) (h2 : bA.invInertia = 0)
    (h3 : bA.rot.mat = o.rotationMat bA.rot.angle) :
    (cp.solvePositions o bA bB).1 = bA := by
  have e1 : ∀ v : Vec2, bA.position - bA.invMass * v = bA.position := by
    intro v; rw [h1]; simp
  have e2 : ∀ q : ℚ, Rot2.setAngle o (bA.rot.getAngle - bA.invInertia * q) = bA.rot := by
    intro q
    rw [h2, zero_mul, sub_zero, Rot2.getAngle]
    exact setAngle_self o bA.rot h3
  unfold ContactPoint.solvePositions
  dsimp only
  rw [e1, e2]

theorem solvePositions_staticB (o : MathOracle) (cp : ContactPoint) (bA bB : Body)
    (h1 : bB.invMass = 0) (h2 : bB.invInertia = 0)
    (h3 : bB.rot.mat = o.rotationMat bB.rot.angle) :
    (cp.solvePositions o bA bB).2 = bB := by
  have e1 : ∀ v : Vec2, bB.position + bB.invMass * v = bB.position := by
    intro v; rw [h1]; simp
  have e2 : ∀ q : ℚ, Rot2.setAngle o (bB.rot.getAngle + bB.invInertia * q) = bB.rot := by
    intro q
    rw [h2, zero_mul, add_zero, Rot2.getAngle]
    exact setAngle_self o bB.rot h3
  unfold ContactPoint.solvePositions
  dsimp only
  rw [e1, e2]

theorem applyImpulseB_shape (b : Body) (p i : Vec2) :
    (applyImpulseB b p i).shape = b.shape := rfl

theorem prepareToSolve_shapeA (cp : ContactPoint) (bA bB : Body) :
    ((cp.prepareToSolve bA bB).2.1).shape = bA.shape := rfl

theorem prepareToSolve_shapeB (cp : ContactPoint) (bA bB : Body) :
    ((cp.prepareToSolve bA bB).2.2).shape = bB.shape := rfl

theorem solveVelocities_shapeA (cp : ContactPoint) (bA bB : Body) (fr : ℚ) :
    ((cp.solveVelocities bA bB fr).2.1).shape = bA.shape := rfl

theorem solveVelocities_shapeB (cp : ContactPoint) (bA bB : Body) (fr : ℚ) :
    ((cp.solveVelocities bA bB fr).2.2).shape = bB.shape := rfl

theorem solvePositions_shapeA (o : MathOracle) (cp : ContactPoint) (bA bB : Body) :
    ((cp.solvePositions o bA bB).1).shape = bA.shape := rfl

theorem solvePositions_shapeB (o : MathOracle) (cp : ContactPoint) (bA bB : Body) :
    ((cp.solvePositions o bA bB).2).shape = bB.shape := rfl

/-! Fold lemmas: the contact loop and manifold loop preserve body-array
length, the static bodies, and every body's immutable part. -/

theorem runContacts_length (f : ContactPoint → Body → Body → ContactPoint × Body × Body)
    (m : ContactManifold) (bodies : List Body) :
    (m.runContacts bodies f).2.length = bodies.length := by
  unfold ContactManifold.runContacts
  suffices h : ∀ (l : List ContactPoint) (acc : List ContactPoint × List Body),
      (l.foldl (solveContactsStep f m.bodyIndA m.bodyIndB) acc).2.length =
        acc.2.length by
    exact h m.contacts ([], bodies)
  intro l
  induction l with
  | nil => intro acc; rfl
  | cons hd tl ih =>
    intro acc
    rw [List.foldl_cons, ih]
    unfold solveContactsStep
    simp [List.length_set]

theorem runContacts_getD_pres {Q : Body → Prop}
    (f : ContactPoint → Body → Body → ContactPoint × Body × Body)
    (hfA : ∀ cp bA bB, Q bA → (f cp bA bB).2.1 = bA)
    (hfB : ∀ cp bA bB, Q bB → (f cp bA bB).2.2 = bB)
    (m : ContactManifold) (bodies : List Body) (k : ℕ)
    (hk : Q (bodies.getD k body0)) :
    (m.runContacts bodies f).2.getD k body0 = bodies.getD k body0 := by
  unfold ContactManifold.runContacts
  suffices h : ∀ (l : List ContactPoint) (acc : List ContactPoint × List Body),
      acc.2.getD k body0 = bodies.getD k body0 →
      (l.foldl (solveContactsStep f m.bodyIndA m.bodyIndB) acc).2.getD k body0 =
        bodies.getD k body0 by
    exact h m.contacts ([], bodies) rfl
  intro l
  induction l with
  | nil => intro acc hacc; exact hacc
  | cons hd tl ih =>
    intro acc hacc
    rw [List.foldl_cons]
    refine ih _ ?_
    unfold solveContactsStep
    dsimp only
    rw [getD_set, getD_set]
    by_cases hB : m.bodyIndB = k ∧ k < (acc.2.set m.bodyIndA
        (f hd (acc.2.getD m.bodyIndA body0) (acc.2.getD m.bodyIndB body0)).2.1).length
    · rw [if_pos hB, ← hB.1, hfB _ _ _ (by rw [hB.1, hacc]; exact hk)]
      rw [hB.1, hacc]
    · rw [if_neg hB]
      by_cases hA : m.bodyIndA = k ∧ k < acc.2.length
      · rw [if_pos hA, ← hA.1, hfA _ _ _ (by rw [hA.1, hacc]; exact hk)]
        rw [hA.1, hacc]
      · rw [if_neg hA]
        exact hacc

theorem runContacts_getD_shape
    (f : ContactPoint → Body → Body → ContactPoint × Body × Body)
    (hfA : ∀ cp bA bB, ((f cp bA bB).2.1).shape = bA.shape)
    (hfB : ∀ cp bA bB, ((f cp bA bB).2.2).shape = bB.shape)
    (m : ContactManifold) (bodies : List Body) (k : ℕ) :
    ((m.runContacts bodies f).2.getD k body0).shape =
      (bodies.getD k body0).shape := by
  unfold ContactManifold.runContacts
  suffices h : ∀ (l : List ContactPoint) (acc : List ContactPoint × List Body),
      (acc.2.getD k body0).shape = (bodies.getD k body0).shape →
      ((l.foldl (solveContactsStep f m.bodyIndA m.bodyIndB) acc).2.getD k body0).shape =
        (bodies.getD k body0).shape by
    exact h m.contacts ([], bodies) rfl
  intro l
  induction l with
  | nil => intro acc hacc; exact hacc
  | cons hd tl ih =>
    intro acc hacc
    rw [List.foldl_cons]
    refine ih _ ?_
    unfold solveContactsStep
    dsimp only
    rw [getD_set, getD_set]
    by_cases hB : m.bodyIndB = k ∧ k < (acc.2.set m.bodyIndA
        (f hd (acc.2.getD m.bodyIndA body0) (acc.2.getD m.bodyIndB body0)).2.1).length
    · rw [if_pos hB, hfB, hB.1]
      exact hacc
    · rw [if_neg hB]
      by_cases hA : m.bodyIndA = k ∧ k < acc.2.length
      · rw [if_pos hA, hfA, hA.1]
        exact hacc
      · rw [if_neg hA]
        exact hacc

theorem solverFold_length (s : SolverState) (bodies : List Body)
    (f : ContactManifold → List Body → ContactManifold × List Body)
    (hf : ∀ m b, (f m b).2.length = b.length) :
    (solverFoldManifolds s bodies f).2.length = bodies.length := by
  unfold solverFoldManifolds
  suffices h : ∀ (l : List (ℕ × ContactManifold))
      (acc : List (ℕ × ContactManifold) × List Body),
      (l.foldl (fun acc km =>
        (acc.1 ++ [(km.1, (f km.2 acc.2).1)], (f km.2 acc.2).2)) acc).2.length =
        acc.2.length by
    exact h s.manifolds ([], bodies)
  intro l
  induction l with
  | nil => intro acc; rfl
  | cons hd tl ih =>
    intro acc
    rw [List.foldl_cons, ih]
    exact hf _ _

theorem solverFold_getD_pres {Q : Body → Prop} (s : SolverState) (bodies : List Body)
    (f : ContactManifold → List Body → ContactManifold × List Body) (k : ℕ)
    (hf : ∀ m b, Q (b.getD k body0) → (f m b).2.getD k body0 = b.getD k body0)
    (hk : Q (bodies.getD k body0)) :
    (solverFoldManifolds s bodies f).2.getD k body0 = bodies.getD k body0 := by
  unfold solverFoldManifolds
  suffices h : ∀ (l : List (ℕ × ContactManifold))
      (acc : List (ℕ × ContactManifold) × List Body),
      acc.2.getD k body0 = bodies.getD k body0 →
      (l.foldl (fun acc km =>
        (acc.1 ++ [(km.1, (f km.2 acc.2).1)], (f km.2 acc.2).2)) acc).2.getD k body0 =
        bodies.getD k body0 by
    exact h s.manifolds ([], bodies) rfl
  intro l
  induction l with
  | nil => intro acc hacc; exact hacc
  | cons hd tl ih =>
    intro acc hacc
    rw [List.foldl_cons]
    refine ih _ ?_
    dsimp only
    rw [hf _ _ (by rw [hacc]; exact hk)]
    exact hacc

theorem solverFold_getD_shape (s : SolverState) (bodies : List Body)
    (f : ContactManifold → List Body → ContactManifold × List Body) (k : ℕ)
    (hf : ∀ m b, ((f m b).2.getD k body0).shape = (b.getD k body0).shape) :
    ((solverFoldManifolds s bodies f).2.getD k body0).shape =
      (bodies.getD k body0).shape := by
  unfold solverFoldManifolds
  suffices h : ∀ (l : List (ℕ × ContactManifold))
      (acc : List (ℕ × ContactManifold) × List Body),
      (acc.2.getD k body0).shape = (bodies.getD k body0).shape →
      ((l.foldl (fun acc km =>
        (acc.1 ++ [(km.1, (f km.2 acc.2).1)], (f km.2 acc.2).2)) acc).2.getD k
          body0).shape = (bodies.getD k body0).shape by
    exact h s.manifolds ([], bodies) rfl
  intro l
  induction l with
  | nil => intro acc hacc; exact hacc
  | cons hd tl ih =>
    intro acc hacc
    rw [List.foldl_cons]
    refine ih _ ?_
    dsimp only
    rw [hf]
    exact hacc

/-! Pointwise and phase-level preservation lemmas. -/

theorem map_getD_pres {Q : Body → Prop} (f : Body → Body) (l : List Body) (k : ℕ)
    (hf : ∀ b, Q b → f b = b) (hk : Q (l.getD k body0)) :
    (l.map f).getD k body0 = l.getD k body0 := by
  by_cases h : k < l.length
  · rw [map_getD_lt f l k body0 body0 h]
    exact hf _ hk
  · rw [getD_default_of_le (l.map f) k body0 (by simpa using le_of_not_lt h),
      getD_default_of_le l k body0 (le_of_not_lt h)]

theorem map_getD_shape (f : Body → Body) (l : List Body) (k : ℕ)
    (hf : ∀ b, (f b).shape = b.shape) :
    ((l.map f).getD k body0).shape = (l.getD k body0).shape := by
  by_cases h : k < l.length
  · rw [map_getD_lt f l k body0 body0 h]
    exact hf _
  · rw [getD_default_of_le (l.map f) k body0 (by simpa using le_of_not_lt h),
      getD_default_of_le l k body0 (le_of_not_lt h)]

theorem applyForces_pointwise_static (g : Vec2) (dt : ℚ) (b : Body) (hb : b.mass = 0) :
    { b with linearVelocity :=
        b.linearVelocity + ((if b.isStatic then (0 : ℚ) else 1) * dt) * g } = b := by
  have hs : b.isStatic := hb
  rw [if_pos hs, zero_mul, Vec2.zero_smul, Vec2.add_zero]

theorem integrate_pointwise_static (o : MathOracle) (dt : ℚ) (b : Body)
    (h1 : b.linearVelocity = 0) (h2 : b.angularVelocity = 0)
    (h3 : b.rot.mat = o.rotationMat b.rot.angle) :
    { b with position := b.position + dt * b.linearVelocity
             rot := Rot2.setAngle o (b.rot.getAngle + dt * b.angularVelocity) } = b := by
  have e1 : b.position + dt * b.linearVelocity = b.position := by
    rw [h1]; simp
  have e2 : Rot2.setAngle o (b.rot.getAngle + dt * b.angularVelocity) = b.rot := by
    rw [h2, mul_zero, add_zero, Rot2.getAngle]
    exact setAngle_self o b.rot h3
  rw [e1, e2]

theorem manifoldPrepare_getD_static (o : MathOracle) (m : ContactManifold)
    (bodies : List Body) (k : ℕ) (hk : StaticWF o (bodies.getD k body0)) :
    (m.prepareToSolve bodies).2.getD k body0 = bodies.getD k body0 :=
  runContacts_getD_pres _
    (fun cp bA bB h => prepareToSolve_staticA cp bA bB h.2.1 h.2.2.1)
    (fun cp bA bB h => prepareToSolve_staticB cp bA bB h.2.1 h.2.2.1)
    m bodies k hk

theorem manifoldSolveVel_getD_static (o : MathOracle) (m : ContactManifold)
    (bodies : List Body) (k : ℕ) (hk : StaticWF o (bodies.getD k body0)) :
    (m.solveVelocities bodies).2.getD k body0 = bodies.getD k body0 :=
  runContacts_getD_pres _
    (fun cp bA bB h => solveVelocities_staticA cp bA bB m.friction h.2.1 h.2.2.1)
    (fun cp bA bB h => solveVelocities_staticB cp bA bB m.friction h.2.1 h.2.2.1)
    m bodies k hk

theorem manifoldSolvePos_getD_static (o : MathOracle) (m : ContactManifold)
    (bodies : List Body) (k : ℕ) (hk : StaticWF o (bodies.getD k body0)) :
    (m.solvePositions o bodies).2.getD k body0 = bodies.getD k body0 :=
  runContacts_getD_pres _
    (fun cp bA bB h => solvePositions_staticA o cp bA bB h.2.1 h.2.2.1 h.2.2.2.2.2)
    (fun cp bA bB h => solvePositions_staticB o cp bA bB h.2.1 h.2.2.1 h.2.2.2.2.2)
    m bodies k hk

theorem solveVelocitiesIter_getD_static (o : MathOracle) (n : ℕ) (s : SolverState)
    (bodies : List Body) (k : ℕ) (hk : StaticWF o (bodies.getD k body0)) :
    (solverSolveVelocities n s bodies).2.getD k body0 = bodies.getD k body0 := by
  induction n generalizing s bodies with
  | zero => rfl
  | succ n ih =>
    show (solverSolveVelocities n _ _).2.getD k body0 = _
    have h1 : (solverSolveVelocitiesOnce s bodies).2.getD k body0 =
        bodies.getD k body0 :=
      solverFold_getD_pres s bodies _ k
        (fun m b hb => manifoldSolveVel_getD_static o m b k hb) hk
    rw [ih _ _ (by rw [h1]; exact hk), h1]

theorem solvePositionsIter_getD_static (o : MathOracle) (n : ℕ) (s : SolverState)
    (bodies : List Body) (k : ℕ) (hk : StaticWF o (bodies.getD k body0)) :
    (solverSolvePositions o n s bodies).2.getD k body0 = bodies.getD k body0 := by
  induction n generalizing s bodies with
  | zero => rfl
  | succ n ih =>
    show (solverSolvePositions o n _ _).2.getD k body0 = _
    have h1 : (solverSolvePositionsOnce o s bodies).2.getD k body0 =
        bodies.getD k body0 :=
      solverFold_getD_pres s bodies _ k
        (fun m b hb => manifoldSolvePos_getD_static o m b k hb) hk
    rw [ih _ _ (by rw [h1]; exact hk), h1]

theorem doStep_getD_static (o : MathOracle) (w : World) (dt : ℚ) (k : ℕ)
    (hs : StaticWF o (w.bodies.getD k body0)) :
    (w.doStep o dt).bodies.getD k body0 = w.bodies.getD k body0 := by
  have h1 : (applyForcesPhase dt w).bodies.getD k body0 = w.bodies.getD k body0 :=
    map_getD_pres _ _ _ (fun b hb => applyForces_pointwise_static w.gravity dt b hb.1) hs
  have h2 : (manifoldsUpdatePhase o (applyForcesPhase dt w)).bodies.getD k body0 =
      w.bodies.getD k body0 := by
    rw [manifoldsUpdatePhase_bodies, h1]
  have h3 : (prepareToSolvePhase
      (manifoldsUpdatePhase o (applyForcesPhase dt w))).bodies.getD k body0 =
      w.bodies.getD k body0 := by
    have step := solverFold_getD_pres
      (manifoldsUpdatePhase o (applyForcesPhase dt w)).solver
      (manifoldsUpdatePhase o (applyForcesPhase dt w)).bodies
      ContactManifold.prepareToSolve k
      (fun m b hb => manifoldPrepare_getD_static o m b k hb) (by rw [h2]; exact hs)
    exact step.trans h2
  have h4 : (solveVelocitiesPhase
      (prepareToSolvePhase
        (manifoldsUpdatePhase o (applyForcesPhase dt w)))).bodies.getD k body0 =
      w.bodies.getD k body0 := by
    have step := solveVelocitiesIter_getD_static o
      (prepareToSolvePhase
        (manifoldsUpdatePhase o (applyForcesPhase dt w))).velocityIterations
      (prepareToSolvePhase
        (manifoldsUpdatePhase o (applyForcesPhase dt w))).solver
      (prepareToSolvePhase
        (manifoldsUpdatePhase o (applyForcesPhase dt w))).bodies
      k (by rw [h3]; exact hs)
    exact step.trans h3
  have h5 : (integratePositionsPhase o dt
      (solveVelocitiesPhase
        (prepareToSolvePhase
          (manifoldsUpdatePhase o (applyForcesPhase dt w))))).bodies.getD k body0 =
      w.bodies.getD k body0 := by
    have step := map_getD_pres (Q := StaticWF o) _
      (solveVelocitiesPhase
        (prepareToSolvePhase
          (manifoldsUpdatePhase o (applyForcesPhase dt w)))).bodies k
      (fun b hb => integrate_pointwise_static o dt b hb.2.2.2.1 hb.2.2.2.2.1
        hb.2.2.2.2.2) (by rw [h4]; exact hs)
    exact step.trans h4
  have step := solvePositionsIter_getD_static o
    (integratePositionsPhase o dt
      (solveVelocitiesPhase
        (prepareToSolvePhase
          (manifoldsUpdatePhase o (applyForcesPhase dt w))))).positionIterations
    (integratePositionsPhase o dt
      (solveVelocitiesPhase
        (prepareToSolvePhase
          (manifoldsUpdatePhase o (applyForcesPhase dt w))))).solver
    (integratePositionsPhase o dt
      (solveVelocitiesPhase
        (prepareToSolvePhase
          (manifoldsUpdatePhase o (applyForcesPhase dt w))))).bodies
    k (by rw [h5]; exact hs)
  exact step.trans h5

/-- C3: a static body, in the state the world's addBody establishes for
it (zero mass and inverse terms, zero velocities, consistent cached
rotation matrix), keeps its position and rotation across a whole step of
any positive duration regardless of the other world contents: gravity is
masked off, impulses are scaled by the zero inverse mass and inertia,
integration advances by the zero velocities, and the position solver
scales its correction by the zero inverse terms. -/
theorem claim_C3 (o : MathOracle) (w : World) (dt : ℚ) (k : ℕ) (hdt : 0 < dt)
    (hs : StaticWF o (w.bodies.getD k body0)) :
    ((w.doStep o dt).bodies.getD k body0).position =
      (w.bodies.getD k body0).position ∧
    ((w.doStep o dt).bodies.getD k body0).rot = (w.bodies.getD k body0).rot := by
  rw [doStep_getD_static o w dt k hs]
  exact ⟨rfl, rfl⟩

/-- Witness for C3: the static body of the concrete one-body world. -/
theorem claim_C3_witness :
    ((staticWorld.doStep oracleId 1).bodies.getD 0 body0).position =
      (staticWorld.bodies.getD 0 body0).position ∧
    ((staticWorld.doStep oracleId 1).bodies.getD 0 body0).rot =
      (staticWorld.bodies.getD 0 body0).rot :=
  claim_C3 oracleId staticWorld 1 0 (by norm_num)
    ⟨rfl, rfl, rfl, rfl, rfl, rfl⟩

/-! Claim C10: frame effect of one step on the body array and the world
configuration. -/

theorem doStep_phases (w : World) (o : MathOracle) (dt : ℚ) :
    w.doStep o dt =
      solvePositionsPhase o
        (integratePositionsPhase o dt
          (solveVelocitiesPhase
            (prepareToSolvePhase
              (manifoldsUpdatePhase o (applyForcesPhase dt w))))) := rfl

theorem solverSolveVelocities_length (n : ℕ) (s : SolverState) (bodies : List Body) :
    (solverSolveVelocities n s bodies).2.length = bodies.length := by
  induction n generalizing s bodies with
  | zero => rfl
  | succ n ih =>
    show (solverSolveVelocities n _ _).2.length = _
    rw [ih]
    exact solverFold_length _ _ _ (fun m b => runContacts_length _ m b)

theorem solverSolvePositions_length (o : MathOracle) (n : ℕ) (s : SolverState)
    (bodies : List Body) :
    (solverSolvePositions o n s bodies).2.length = bodies.length := by
  induction n generalizing s bodies with
  | zero => rfl
  | succ n ih =>
    show (solverSolvePositions o n _ _).2.length = _
    rw [ih]
    exact solverFold_length _ _ _ (fun m b => runContacts_length _ m b)

@[simp] theorem applyForcesPhase_bodies_length (dt : ℚ) (w : World) :
    (applyForcesPhase dt w).bodies.length = w.bodies.length := by
  show (w.bodies.map _).length = _
  simp

@[simp] theorem prepareToSolvePhase_bodies_length (w : World) :
    (prepareToSolvePhase w).bodies.length = w.bodies.length :=
  solverFold_length _ _ _ (fun m b => runContacts_length _ m b)

@[simp] theorem solveVelocitiesPhase_bodies_length (w : World) :
    (solveVelocitiesPhase w).bodies.length = w.bodies.length :=
  solverSolveVelocities_length _ _ _

@[simp] theorem integratePositionsPhase_bodies_length (o : MathOracle) (dt : ℚ)
    (w : World) :
    (integratePositionsPhase o dt w).bodies.length = w.bodies.length := by
  show (w.bodies.map _).length = _
  simp

@[simp] theorem solvePositionsPhase_bodies_length (o : MathOracle) (w : World) :
    (solvePositionsPhase o w).bodies.length = w.bodies.length :=
  solverSolvePositions_length _ _ _ _

theorem solverSolveVelocities_getD_shape (n : ℕ) (s : SolverState)
    (bodies : List Body) (k : ℕ) :
    ((solverSolveVelocities n s bodies).2.getD k body0).shape =
      (bodies.getD k body0).shape := by
  induction n generalizing s bodies with
  | zero => rfl
  | succ n ih =>
    show ((solverSolveVelocities n _ _).2.getD k body0).shape = _
    rw [ih]
    exact solverFold_getD_shape _ _ _ k
      (fun m b => runContacts_getD_shape _
        (fun cp bA bB => solveVelocities_shapeA cp bA bB m.friction)
        (fun cp bA bB => solveVelocities_shapeB cp bA bB m.friction) m b k)

theorem solverSolvePositions_getD_shape (o : MathOracle) (n : ℕ) (s : SolverState)
    (bodies : List Body) (k : ℕ) :
    ((solverSolvePositions o n s bodies).2.getD k body0).shape =
      (bodies.getD k body0).shape := by
  induction n generalizing s bodies with
  | zero => rfl
  | succ n ih =>
    show ((solverSolvePositions o n _ _).2.getD k body0).shape = _
    rw [ih]
    exact solverFold_getD_shape _ _ _ k
      (fun m b => runContacts_getD_shape _
        (fun cp bA bB => solvePositions_shapeA o cp bA bB)
        (fun cp bA bB => solvePositions_shapeB o cp bA bB) m b k)

theorem doStep_length (o : MathOracle) (w : World) (dt : ℚ) :
    (w.doStep o dt).bodies.length = w.bodies.length := by
  rw [doStep_phases]
  simp [manifoldsUpdatePhase_bodies]

theorem doStep_getD_shape (o : MathOracle) (w : World) (dt : ℚ) (k : ℕ) :
    ((w.doStep o dt).bodies.getD k body0).shape =
      (w.bodies.getD k body0).shape := by
  have h1 : ((applyForcesPhase dt w).bodies.getD k body0).shape =
      (w.bodies.getD k body0).shape :=
    map_getD_shape _ _ _ (fun b => rfl)
  have h2 : ((manifoldsUpdatePhase o (applyForcesPhase dt w)).bodies.getD k
      body0).shape = (w.bodies.getD k body0).shape := by
    rw [manifoldsUpdatePhase_bodies]; exact h1
  have h3 : ((prepareToSolvePhase
      (manifoldsUpdatePhase o (applyForcesPhase dt w))).bodies.getD k body0).shape =
      (w.bodies.getD k body0).shape := by
    have step := solverFold_getD_shape
      (manifoldsUpdatePhase o (applyForcesPhase dt w)).solver
      (manifoldsUpdatePhase o (applyForcesPhase dt w)).bodies
      ContactManifold.prepareToSolve k
      (fun m b => runContacts_getD_shape _ prepareToSolve_shapeA
        prepareToSolve_shapeB m b k)
    exact step.trans h2
  have h4 : ((solveVelocitiesPhase
      (prepareToSolvePhase
        (manifoldsUpdatePhase o (applyForcesPhase dt w)))).bodies.getD k
      body0).shape = (w.bodies.getD k body0).shape := by
    have step := solverSolveVelocities_getD_shape
      (prepareToSolvePhase
        (manifoldsUpdatePhase o (applyForcesPhase dt w))).velocityIterations
      (prepareToSolvePhase
        (manifoldsUpdatePhase o (applyForcesPhase dt w))).solver
      (prepareToSolvePhase
        (manifoldsUpdatePhase o (applyForcesPhase dt w))).bodies k
    exact step.trans h3
  have h5 : ((integratePositionsPhase o dt
      (solveVelocitiesPhase
        (prepareToSolvePhase
          (manifoldsUpdatePhase o (applyForcesPhase dt w))))).bodies.getD k
      body0).shape = (w.bodies.getD k body0).shape := by
    have step : ((integratePositionsPhase o dt
        (solveVelocitiesPhase
          (prepareToSolvePhase
            (manifoldsUpdatePhase o (applyForcesPhase dt w))))).bodies.getD k
        body0).shape =
        ((solveVelocitiesPhase
          (prepareToSolvePhase
            (manifoldsUpdatePhase o (applyForcesPhase dt w)))).bodies.getD k
          body0).shape :=
      map_getD_shape _ _ _ (fun b => rfl)
    exact step.trans h4
  have step := solverSolvePositions_getD_shape o
    (integratePositionsPhase o dt
      (solveVelocitiesPhase
        (prepareToSolvePhase
          (manifoldsUpdatePhase o (applyForcesPhase dt w))))).positionIterations
    (integratePositionsPhase o dt
      (solveVelocitiesPhase
        (prepareToSolvePhase
          (manifoldsUpdatePhase o (applyForcesPhase dt w))))).solver
    (integratePositionsPhase o dt
      (solveVelocitiesPhase
        (prepareToSolvePhase
          (manifoldsUpdatePhase o (applyForcesPhase dt w))))).bodies k
  exact step.trans h5

/-- C10 counterexample to the claim as stated: one step on a fresh
one-body world also mutates the broad-phase endpoint list, a world
component outside the mutation set the claim lists (body poses,
velocities and the solver's manifold state). -/
theorem claim_C10_counterexample :
    staticWorld.endpoints = [] ∧ (staticWorld.doStep oracleId 1).endpoints ≠ [] := by
  refine ⟨rfl, ?_⟩
  have h : (staticWorld.doStep oracleId 1).endpoints =
      [⟨-1, 0, true⟩, ⟨1, 0, false⟩] := by with_unfolding_all rfl
  rw [h]
  simp

/-- C10 amended: one step preserves the body count, every body's
immutable fields (half size, mass, inverse mass, inertia, inverse
inertia, friction) and the world configuration (gravity and both
iteration counts); besides the body poses and velocities and the
solver's manifold state, the step also rewrites the broad phase's
internal caches (its persistent endpoint list and rebuilt AABB array),
which the original claim omitted. -/
theorem claim_C10_amended (o : MathOracle) (w : World) (dt : ℚ) :
    (w.doStep o dt).bodies.length = w.bodies.length ∧
    (∀ k, ((w.doStep o dt).bodies.getD k body0).shape =
      (w.bodies.getD k body0).shape) ∧
    (w.doStep o dt).gravity = w.gravity ∧
    (w.doStep o dt).velocityIterations = w.velocityIterations ∧
    (w.doStep o dt).positionIterations = w.positionIterations := by
  refine ⟨doStep_length o w dt, fun k => doStep_getD_shape o w dt k, ?_, ?_, ?_⟩
  · rw [doStep_phases]; simp
  · rw [doStep_phases]; simp
  · rw [doStep_phases]; simp

/-! Broad-phase correctness: supporting order and counting lemmas. -/

theorem endpointLT_start_end {x y : Endpoint} (hx : x.isStart = true)
    (hy : y.isStart = false) : endpointLT x y ↔ x.position < y.position := by
  unfold endpointLT
  rw [hx, hy]
  simp

theorem endpointLT_end_start {x y : Endpoint} (hx : x.isStart = false)
    (hy : y.isStart = true) : endpointLT x y ↔ x.position ≤ y.position := by
  unfold endpointLT
  rw [hx, hy]
  constructor
  · rintro (h | ⟨h, _, _⟩)
    · exact le_of_lt h
    · exact le_of_eq h
  · intro h
    rcases lt_or_eq_of_le h with h2 | h2
    · exact Or.inl h2
    · exact Or.inr ⟨h2, rfl, rfl⟩

theorem endpointLT_same {x y : Endpoint} (h : x.isStart = y.isStart) :
    endpointLT x y ↔ x.position < y.position := by
  unfold endpointLT
  constructor
  · rintro (h2 | ⟨_, hx, hy⟩)
    · exact h2
    · rw [h, hy] at hx
      exact Bool.noConfusion hx
  · exact Or.inl

theorem canonicalTags_count (m : ℕ) (t : ℕ × Bool) :
    (canonicalTags m).count t = if t.1 < m then 1 else 0 := by
  induction m with
  | zero => simp [canonicalTags]
  | succ m ih =>
    unfold canonicalTags at ih ⊢
    rw [List.range_succ, List.flatMap_append, List.count_append, ih]
    rcases t with ⟨i, s⟩
    simp only [List.flatMap_cons, List.flatMap_nil, List.append_nil]
    rw [List.count_cons, List.count_cons, List.count_nil]
    by_cases h1 : i = m
    · subst h1
      cases s <;> simp [Prod.ext_iff]
    · have h2 : ¬ ((m, true) = (i, s)) := by simp [Prod.ext_iff]; intro hc; omega
      have h3 : ¬ ((m, false) = (i, s)) := by simp [Prod.ext_iff]; intro hc; omega
      simp only [beq_iff_eq, h2, h3, if_false]
      by_cases h4 : i < m
      · rw [if_pos h4, if_pos (by omega)]
      · rw [if_neg h4, if_neg (by omega)]

theorem mem_canonicalTags (m : ℕ) (t : ℕ × Bool) :
    t ∈ canonicalTags m ↔ t.1 < m := by
  rw [← List.count_pos_iff, canonicalTags_count]
  split_ifs with h <;> simp [h]

/-! Swap-and-pop specification used by the end-event branch. -/

theorem getLastD_eq_getD {α : Type} (l : List α) (d : α) (h : l ≠ []) :
    (l.getLast?).getD d = l.getD (l.length - 1) d := by
  have hlen : 0 < l.length := List.length_pos.mpr h
  rw [List.getLast?_eq_getElem?, List.getElem?_eq_getElem (by omega),
    List.getD_eq_getElem l d (by omega)]
  rfl

theorem getD_mem {α : Type} (l : List α) (k : ℕ) (d : α) (h : k < l.length) :
    l.getD k d ∈ l := by
  rw [List.getD_eq_getElem l d h]
  exact List.getElem_mem h

theorem swapPop_getD (l : List ℕ) (idx k v : ℕ) (hk : k < l.length - 1) :
    ((l.set idx v).dropLast).getD k 0 = if idx = k then v else l.getD k 0 := by
  have hk2 : k < (l.set idx v).dropLast.length := by
    rw [List.length_dropLast, List.length_set]; omega
  rw [List.getD_eq_getElem _ _ hk2, List.getElem_dropLast, List.getElem_set]
  by_cases h : idx = k
  · rw [if_pos h, if_pos h]
  · rw [if_neg h, if_neg h, List.getD_eq_getElem l 0 (by omega)]

theorem swapPop_full (l : List ℕ) (M : ℕ → ℕ) (bIdx : ℕ)
    (hN : l.Nodup)
    (hM : M bIdx < l.length ∧ l.getD (M bIdx) 0 = bIdx)
    (hMall : ∀ c ∈ l, M c < l.length ∧ l.getD (M c) 0 = c) :
    ((l.set (M bIdx) ((l.getLast?).getD 0)).dropLast).Nodup ∧
    (∀ c, c ∈ (l.set (M bIdx) ((l.getLast?).getD 0)).dropLast ↔
      (c ∈ l ∧ c ≠ bIdx)) ∧
    (∀ c ∈ (l.set (M bIdx) ((l.getLast?).getD 0)).dropLast,
      (if c = (l.getLast?).getD 0 then M bIdx else M c) <
        ((l.set (M bIdx) ((l.getLast?).getD 0)).dropLast).length ∧
      ((l.set (M bIdx) ((l.getLast?).getD 0)).dropLast).getD
        (if c = (l.getLast?).getD 0 then M bIdx else M c) 0 = c) := by
  have hidx : M bIdx < l.length := hM.1
  have hgetb : l.getD (M bIdx) 0 = bIdx := hM.2
  have hlen : 0 < l.length := by omega
  have hne : l ≠ [] := by
    intro h; rw [h] at hlen; exact absurd hlen (by simp)
  have hlast : (l.getLast?).getD 0 = l.getD (l.length - 1) 0 :=
    getLastD_eq_getD l 0 hne
  have hinj : ∀ k1 k2, k1 < l.length → k2 < l.length →
      l.getD k1 0 = l.getD k2 0 → k1 = k2 := by
    intro k1 k2 h1 h2 he
    rw [List.getD_eq_getElem l 0 h1, List.getD_eq_getElem l 0 h2] at he
    exact (List.Nodup.getElem_inj_iff hN).mp he
  have hlen2 : ((l.set (M bIdx) ((l.getLast?).getD 0)).dropLast).length =
      l.length - 1 := by
    rw [List.length_dropLast, List.length_set]
  have hmem : ∀ c, c ∈ (l.set (M bIdx) ((l.getLast?).getD 0)).dropLast ↔
      (c ∈ l ∧ c ≠ bIdx) := by
    intro c
    constructor
    · intro hc
      rcases List.mem_iff_getElem.mp hc with ⟨k, hk, hke⟩
      have hk2 : k < l.length - 1 := by rw [hlen2] at hk; exact hk
      have hval : ((l.set (M bIdx) ((l.getLast?).getD 0)).dropLast).getD k 0 = c := by
        rw [List.getD_eq_getElem _ _ hk]; exact hke
      rw [swapPop_getD l _ k _ hk2] at hval
      by_cases hcase : M bIdx = k
      · rw [if_pos hcase] at hval
        rw [hlast] at hval
        constructor
        · rw [← hval]
          exact getD_mem l _ 0 (by omega)
        · intro hceq
          have : M bIdx = l.length - 1 :=
            hinj (M bIdx) (l.length - 1) hidx (by omega) (by rw [hgetb, hval, hceq])
          omega
      · rw [if_neg hcase] at hval
        constructor
        · rw [← hval]
          exact getD_mem l _ 0 (by omega)
        · intro hceq
          exact hcase (hinj (M bIdx) k hidx (by omega) (by rw [hgetb, hval, hceq]))
    · rintro ⟨hc, hcne⟩
      rcases List.mem_iff_getElem.mp hc with ⟨k, hk, hke⟩
      have hkd : l.getD k 0 = c := by rw [List.getD_eq_getElem l 0 hk]; exact hke
      have hkne : k ≠ M bIdx := by
        intro hceq; rw [hceq, hgetb] at hkd; exact hcne hkd.symm
      by_cases hcase : k < l.length - 1
      · rw [List.mem_iff_getElem]
        refine ⟨k, by rw [hlen2]; exact hcase, ?_⟩
        have := swapPop_getD l (M bIdx) k ((l.getLast?).getD 0) hcase
        rw [if_neg (fun h => hkne h.symm), hkd] at this
        rw [← List.getD_eq_getElem _ 0 (by rw [hlen2]; exact hcase)]
        exact this
      · have hk1 : k = l.length - 1 := by omega
        have hclast : c = (l.getLast?).getD 0 := by
          rw [hlast, ← hk1, hkd]
        have hidxne : M bIdx ≠ l.length - 1 := by
          intro he; exact hkne (by omega)
        have hidx2 : M bIdx < l.length - 1 := by omega
        rw [List.mem_iff_getElem]
        refine ⟨M bIdx, by rw [hlen2]; exact hidx2, ?_⟩
        have := swapPop_getD l (M bIdx) (M bIdx) ((l.getLast?).getD 0) hidx2
        rw [if_pos rfl] at this
        rw [← List.getD_eq_getElem _ 0 (by rw [hlen2]; exact hidx2), this, hclast]
  refine ⟨?_, hmem, ?_⟩
  · rw [List.Nodup, List.pairwise_iff_getElem]
    intro k1 k2 h1 h2 hlt
    have h1d : k1 < l.length - 1 := by rw [hlen2] at h1; exact h1
    have h2d : k2 < l.length - 1 := by rw [hlen2] at h2; exact h2
    rw [← List.getD_eq_getElem _ 0 h1, ← List.getD_eq_getElem _ 0 h2,
      swapPop_getD l _ k1 _ h1d, swapPop_getD l _ k2 _ h2d]
    intro he
    by_cases c1 : M bIdx = k1
    · rw [if_pos c1] at he
      rw [if_neg (by omega)] at he
      rw [hlast] at he
      have := hinj _ _ (by omega) (by omega) he
      omega
    · rw [if_neg c1] at he
      by_cases c2 : M bIdx = k2
      · rw [if_pos c2, hlast] at he
        have := hinj _ _ (by omega) (by omega) he
        omega
      · rw [if_neg c2] at he
        have := hinj _ _ (by omega) (by omega) he
        omega
  · intro c hc
    rcases (hmem c).mp hc with ⟨hcl, hcne⟩
    by_cases hcase : c = (l.getLast?).getD 0
    · rw [if_pos hcase]
      have hidxne : M bIdx ≠ l.length - 1 := by
        intro he
        rw [hlast, ← he, hgetb] at hcase
        exact hcne hcase
      constructor
      · rw [hlen2]; omega
      · rw [swapPop_getD l _ _ _ (by omega), if_pos rfl, hcase]
    · rw [if_neg hcase]
      have hMc := hMall c hcl
      have hMne1 : M c ≠ M bIdx := by
        intro he
        rw [← he, hMc.2] at hgetb
        exact hcne hgetb
      have hMne2 : M c ≠ l.length - 1 := by
        intro he
        rw [hlast, ← he, hMc.2] at hcase
        exact hcase rfl
      have hMlt : M c < l.length - 1 := by
        have := hMc.1; omega
      constructor
      · rw [hlen2]; exact hMlt
      · rw [swapPop_getD l _ _ _ hMlt, if_neg (fun h => hMne1 h.symm)]
        exact hMc.2

/-! Unfolding lemmas for one sweep event. -/

theorem sweepStep_start_active (bodies : List Body) (st : SweepState) (e : Endpoint)
    (he : e.isStart = true) :
    (sweepStep bodies st e).active = st.active ++ [e.index] := by
  simp [sweepStep, he]

theorem sweepStep_start_mapping (bodies : List Body) (st : SweepState) (e : Endpoint)
    (he : e.isStart = true) :
    (sweepStep bodies st e).mapping =
      fun j => if j = e.index then st.active.length else st.mapping j := by
  simp [sweepStep, he]

theorem sweepStep_start_pairs (bodies : List Body) (st : SweepState) (e : Endpoint)
    (he : e.isStart = true) :
    (sweepStep bodies st e).pairs =
      st.pairs ++ st.active.filterMap (fun i2 =>
        if staticAt bodies e.index ∧ staticAt bodies i2 then none
        else if ¬ yOverlap (aabbAt bodies e.index) (aabbAt bodies i2) then none
        else if e.index < i2 then some (e.index, i2) else some (i2, e.index)) := by
  simp [sweepStep, he]

theorem sweepStep_end_active (bodies : List Body) (st : SweepState) (e : Endpoint)
    (he : e.isStart = false) :
    (sweepStep bodies st e).active =
      (st.active.set (st.mapping e.index) ((st.active.getLast?).getD 0)).dropLast := by
  simp [sweepStep, he]

theorem sweepStep_end_mapping (bodies : List Body) (st : SweepState) (e : Endpoint)
    (he : e.isStart = false) :
    (sweepStep bodies st e).mapping =
      fun j => if j = (st.active.getLast?).getD 0 then st.mapping e.index
        else st.mapping j := by
  simp [sweepStep, he]

theorem sweepStep_end_pairs (bodies : List Body) (st : SweepState) (e : Endpoint)
    (he : e.isStart = false) :
    (sweepStep bodies st e).pairs = st.pairs := by
  simp [sweepStep, he]

/-- Characterization of the per-active emission test of the sweep. -/
theorem sweepEmit_eq (bodies : List Body) (i1 i2 : ℕ) (p : ℕ × ℕ) :
    ((if staticAt bodies i1 ∧ staticAt bodies i2 then none
      else if ¬ yOverlap (aabbAt bodies i1) (aabbAt bodies i2) then none
      else if i1 < i2 then some (i1, i2) else some (i2, i1)) = some p) ↔
    (¬ (staticAt bodies i1 ∧ staticAt bodies i2) ∧
     yOverlap (aabbAt bodies i1) (aabbAt bodies i2) ∧
     ((i1 < i2 ∧ p = (i1, i2)) ∨ (¬ i1 < i2 ∧ p = (i2, i1)))) := by
  by_cases h1 : staticAt bodies i1 ∧ staticAt bodies i2
  · simp [h1]
  · by_cases h2 : yOverlap (aabbAt bodies i1) (aabbAt bodies i2)
    · by_cases h3 : i1 < i2 <;> simp [h1, h2, h3, eq_comm]
    · simp [h1, h2]

theorem yOverlap_symm (a b : Aabb) : yOverlap a b ↔ yOverlap b a := by
  unfold yOverlap
  rw [or_comm]

/-! Tag bookkeeping over the sorted endpoint sequence: the tags of a
well-formed endpoint list are duplicate-free, one start and one end per
body index. -/

theorem canonicalTags_nodup (m : ℕ) : (canonicalTags m).Nodup := by
  induction m with
  | zero => simp [canonicalTags]
  | succ m ih =>
    unfold canonicalTags at ih ⊢
    rw [List.range_succ, List.flatMap_append]
    rw [List.nodup_append]
    refine ⟨ih, by simp, ?_⟩
    intro t ht hc
    have h1 : t.1 < m := (mem_canonicalTags m t).mp ht
    simp only [List.flatMap_cons, List.flatMap_nil, List.append_nil, List.mem_cons,
      List.not_mem_nil, or_false] at hc
    rcases hc with hc | hc <;> (rw [hc] at h1; exact absurd h1 (lt_irrefl m))

theorem tags_nodup (bodies : List Body) (S : List Endpoint)
    (HP : (S.map epTag).Perm (canonicalTags bodies.length)) :
    (S.map epTag).Nodup :=
  (HP.nodup_iff).mpr (canonicalTags_nodup bodies.length)

theorem tag_mem_S (bodies : List Body) (S : List Endpoint)
    (HP : (S.map epTag).Perm (canonicalTags bodies.length)) (t : ℕ × Bool) :
    t ∈ S.map epTag ↔ t.1 < bodies.length := by
  rw [HP.mem_iff]
  exact mem_canonicalTags bodies.length t

theorem tags_decomp (S P R2 : List Endpoint) (e : Endpoint) (hdec : S = P ++ e :: R2) :
    S.map epTag = P.map epTag ++ epTag e :: R2.map epTag := by
  rw [hdec]
  simp

/-- The current event's own tag occurs neither in the processed prefix
nor in the remainder, and its body index is in range. -/
theorem tag_split_self (bodies : List Body) (S P R2 : List Endpoint) (e : Endpoint)
    (HP : (S.map epTag).Perm (canonicalTags bodies.length))
    (hdec : S = P ++ e :: R2) :
    e.index < bodies.length ∧ epTag e ∉ P.map epTag ∧ epTag e ∉ R2.map epTag := by
  have hnd := tags_nodup bodies S HP
  rw [tags_decomp S P R2 e hdec] at hnd
  have hmem : epTag e ∈ S.map epTag := by
    rw [hdec]
    exact List.mem_map.mpr ⟨e, by simp, rfl⟩
  have hn : (epTag e).1 < bodies.length := (tag_mem_S bodies S HP (epTag e)).mp hmem
  rcases List.nodup_append.mp hnd with ⟨h1, h2, h3⟩
  refine ⟨hn, ?_, ?_⟩
  · intro hc
    exact h3 hc (List.mem_cons_self _ _)
  · exact (List.nodup_cons.mp h2).1

/-- The opposite tag of the current event's body lies entirely on one
side of the decomposition. -/
theorem tag_split_other (bodies : List Body) (S P R2 : List Endpoint) (e : Endpoint)
    (HP : (S.map epTag).Perm (canonicalTags bodies.length))
    (hdec : S = P ++ e :: R2) (s : Bool) (hs : s ≠ e.isStart) :
    ((e.index, s) ∈ P.map epTag ∧ (e.index, s) ∉ R2.map epTag) ∨
    ((e.index, s) ∉ P.map epTag ∧ (e.index, s) ∈ R2.map epTag) := by
  have hn : e.index < bodies.length :=
    (tag_split_self bodies S P R2 e HP hdec).1
  have hmem : (e.index, s) ∈ S.map epTag :=
    (tag_mem_S bodies S HP (e.index, s)).mpr hn
  have hnd := tags_nodup bodies S HP
  rw [tags_decomp S P R2 e hdec] at hnd hmem
  rcases List.nodup_append.mp hnd with ⟨h1, h2, h3⟩
  have hne : (e.index, s) ≠ epTag e := by
    intro hc
    exact hs (congrArg Prod.snd hc)
  rcases List.mem_append.mp hmem with hp | hp
  · left
    refine ⟨hp, ?_⟩
    intro hr
    exact h3 hp (List.mem_cons_of_mem _ hr)
  · right
    rcases List.mem_cons.mp hp with hp2 | hp2
    · exact absurd hp2 hne
    · refine ⟨?_, hp2⟩
      intro hc
      exact h3 hc (List.mem_cons_of_mem _ hp2)

theorem getD_append_left {α : Type} (l l2 : List α) (k : ℕ) (d : α)
    (h : k < l.length) : (l ++ l2).getD k d = l.getD k d := by
  rw [List.getD_eq_getElem _ _ (by simp; omega), List.getD_eq_getElem _ _ h]
  exact List.getElem_append_left ..

theorem getD_concat_self {α : Type} (l : List α) (x d : α) :
    (l ++ [x]).getD l.length d = x := by
  rw [List.getD_eq_getElem _ _ (by simp)]
  simp

theorem pos_of_start (bodies : List Body) (S : List Endpoint)
    (HC : ∀ x ∈ S, x.position = if x.isStart then (aabbAt bodies x.index).min.x
      else (aabbAt bodies x.index).max.x)
    (x : Endpoint) (hx : x ∈ S) (hs : x.isStart = true) :
    x.position = (aabbAt bodies x.index).min.x := by
  have := HC x hx
  rwa [hs, if_pos rfl] at this

theorem pos_of_end (bodies : List Body) (S : List Endpoint)
    (HC : ∀ x ∈ S, x.position = if x.isStart then (aabbAt bodies x.index).min.x
      else (aabbAt bodies x.index).max.x)
    (x : Endpoint) (hx : x ∈ S) (hs : x.isStart = false) :
    x.position = (aabbAt bodies x.index).max.x := by
  have := HC x hx
  rwa [hs, if_neg (by simp)] at this

/-- Processing a start event preserves the sweep invariant. -/
theorem sweepStep_inv_start (bodies : List Body) (S P R2 : List Endpoint)
    (e : Endpoint) (st : SweepState)
    (HS : List.Sorted endpointLE S)
    (HP : (S.map epTag).Perm (canonicalTags bodies.length))
    (HC : ∀ x ∈ S, x.position = if x.isStart then (aabbAt bodies x.index).min.x
      else (aabbAt bodies x.index).max.x)
    (HND : ∀ i, i < bodies.length →
      (aabbAt bodies i).min.x < (aabbAt bodies i).max.x)
    (hdec : S = P ++ e :: R2) (he : e.isStart = true)
    (hInv : SweepInv bodies P st) :
    SweepInv bodies (P ++ [e]) (sweepStep bodies st e) := by
  obtain ⟨I1, I2, I3, I4, I5⟩ := hInv
  have hSl : List.Sorted endpointLE (P ++ e :: R2) := hdec ▸ HS
  have hPe : ∀ x ∈ P, ¬ endpointLT e x := fun x hx =>
    (List.pairwise_append.mp hSl).2.2 x hx e (List.mem_cons_self e R2)
  have heR : ∀ y ∈ R2, ¬ endpointLT y e := fun y hy =>
    (List.pairwise_cons.mp (List.pairwise_append.mp hSl).2.1).1 y hy
  have hPS : ∀ x ∈ P, x ∈ S := fun x hx => by
    rw [hdec]; exact List.mem_append_left _ hx
  have hRS : ∀ y ∈ R2, y ∈ S := fun y hy => by
    rw [hdec]; exact List.mem_append_right _ (List.mem_cons_of_mem _ hy)
  have heS : e ∈ S := by
    rw [hdec]; exact List.mem_append_right _ (List.mem_cons_self e R2)
  have hePos : e.position = (aabbAt bodies e.index).min.x :=
    pos_of_start bodies S HC e heS he
  have hsplit := tag_split_self bodies S P R2 e HP hdec
  have haN : e.index < bodies.length := hsplit.1
  have heTag : epTag e = (e.index, true) := by rw [epTag, he]
  have hStartP : (e.index, true) ∉ P.map epTag := heTag ▸ hsplit.2.1
  have hEndP : (e.index, false) ∉ P.map epTag := by
    intro hc
    rcases List.mem_map.mp hc with ⟨x, hx, hxe⟩
    have hxi : x.index = e.index := congrArg Prod.fst hxe
    have hxs : x.isStart = false := congrArg Prod.snd hxe
    have hxpos : x.position = (aabbAt bodies x.index).max.x :=
      pos_of_end bodies S HC x (hPS x hx) hxs
    refine hPe x hx ?_
    rw [endpointLT_start_end he hxs, hePos, hxpos, hxi]
    exact HND e.index haN
  have hK1 : ∀ b, (b, true) ∈ P.map epTag → b < bodies.length := fun b hb =>
    (tag_mem_S bodies S HP (b, true)).mp
      (by rw [tags_decomp S P R2 e hdec]; exact List.mem_append_left _ hb)
  have hK2 : ∀ b, (b, true) ∈ P.map epTag → (b, false) ∉ P.map epTag →
      (aabbAt bodies e.index).min.x < (aabbAt bodies b).max.x := by
    intro b hbt hbf
    have hbN : b < bodies.length := hK1 b hbt
    have hbfS : (b, false) ∈ S.map epTag :=
      (tag_mem_S bodies S HP (b, false)).mpr hbN
    rw [tags_decomp S P R2 e hdec] at hbfS
    rcases List.mem_append.mp hbfS with hcase | hcase
    · exact absurd hcase hbf
    · rcases List.mem_cons.mp hcase with hcase | hcase
      · rw [heTag] at hcase
        exact absurd (congrArg Prod.snd hcase) (by simp)
      · rcases List.mem_map.mp hcase with ⟨y, hy, hye⟩
        have hyi : y.index = b := congrArg Prod.fst hye
        have hys : y.isStart = false := congrArg Prod.snd hye
        have hypos : y.position = (aabbAt bodies y.index).max.x :=
          pos_of_end bodies S HC y (hRS y hy) hys
        have hnlty := heR y hy
        rw [endpointLT_end_start hys he, hypos, hyi, hePos] at hnlty
        exact lt_of_not_le hnlty
  have hK3 : ∀ b, (b, true) ∈ P.map epTag →
      (aabbAt bodies b).min.x ≤ (aabbAt bodies e.index).min.x := by
    intro b hbt
    rcases List.mem_map.mp hbt with ⟨x, hx, hxe⟩
    have hxi : x.index = b := congrArg Prod.fst hxe
    have hxs : x.isStart = true := congrArg Prod.snd hxe
    have hxpos : x.position = (aabbAt bodies x.index).min.x :=
      pos_of_start bodies S HC x (hPS x hx) hxs
    have hnlt := hPe x hx
    rw [endpointLT_same (he.trans hxs.symm), hePos, hxpos, hxi] at hnlt
    exact le_of_not_lt hnlt
  have hK4 : ∀ b, (aabbAt bodies e.index).min.x < (aabbAt bodies b).max.x →
      (b, false) ∉ P.map epTag := by
    intro b hx hc
    rcases List.mem_map.mp hc with ⟨x, hxP, hxe⟩
    have hxi : x.index = b := congrArg Prod.fst hxe
    have hxs : x.isStart = false := congrArg Prod.snd hxe
    have hxpos : x.position = (aabbAt bodies x.index).max.x :=
      pos_of_end bodies S HC x (hPS x hxP) hxs
    refine hPe x hxP ?_
    rw [endpointLT_start_end he hxs, hePos, hxpos, hxi]
    exact hx
  have haActive : e.index ∉ st.active := fun hc => hStartP ((I3 e.index).mp hc).1
  have hTags : (P ++ [e]).map epTag = P.map epTag ++ [(e.index, true)] := by
    rw [List.map_append]
    rw [show [e].map epTag = [(e.index, true)] by simp [heTag]]
  have hact := sweepStep_start_active bodies st e he
  have hmapf := sweepStep_start_mapping bodies st e he
  have hpairs := sweepStep_start_pairs bodies st e he
  have hActiveLt : ∀ b ∈ st.active,
      (aabbAt bodies e.index).min.x < (aabbAt bodies b).max.x := by
    intro b hb
    have h3 := (I3 b).mp hb
    exact hK2 b h3.1 h3.2
  have hActiveLt2 : ∀ b ∈ st.active,
      (aabbAt bodies b).min.x < (aabbAt bodies e.index).max.x := by
    intro b hb
    exact lt_of_le_of_lt (hK3 b ((I3 b).mp hb).1) (HND e.index haN)
  refine ⟨?_, ?_, ?_, ?_, ?_⟩
  · rw [hact, List.nodup_append]
    refine ⟨I1, List.nodup_singleton _, ?_⟩
    intro c hc hc2
    rw [List.mem_singleton] at hc2
    rw [hc2] at hc
    exact haActive hc
  · rw [hact, hmapf]
    intro b hb
    dsimp only
    rcases List.mem_append.mp hb with hb2 | hb2
    · have hbne : b ≠ e.index := by
        intro hc; rw [hc] at hb2; exact haActive hb2
      rw [if_neg hbne]
      have h2 := I2 b hb2
      refine ⟨by simp only [List.length_append, List.length_singleton]; omega, ?_⟩
      rw [getD_append_left st.active [e.index] _ 0 h2.1]
      exact h2.2
    · rw [List.mem_singleton] at hb2
      rw [hb2, if_pos rfl]
      refine ⟨by simp, ?_⟩
      exact getD_concat_self st.active e.index 0
  · rw [hact, hTags]
    intro b
    rw [List.mem_append, List.mem_singleton]
    constructor
    · intro hb
      rcases hb with hb | hb
      · have h3 := (I3 b).mp hb
        refine ⟨List.mem_append_left _ h3.1, ?_⟩
        intro hc
        rcases List.mem_append.mp hc with hc | hc
        · exact h3.2 hc
        · rw [List.mem_singleton] at hc
          exact absurd (congrArg Prod.snd hc) (by simp)
      · rw [hb]
        refine ⟨List.mem_append_right _ (List.mem_singleton.mpr rfl), ?_⟩
        intro hc
        rcases List.mem_append.mp hc with hc | hc
        · exact hEndP hc
        · rw [List.mem_singleton] at hc
          exact absurd (congrArg Prod.snd hc) (by simp)
    · rintro ⟨h1, h2⟩
      rcases List.mem_append.mp h1 with h1 | h1
      · left
        refine (I3 b).mpr ⟨h1, ?_⟩
        intro hc
        exact h2 (List.mem_append_left _ hc)
      · right
        rw [List.mem_singleton] at h1
        exact congrArg Prod.fst h1
  · rw [hpairs, hTags]
    intro p
    rw [List.mem_append]
    constructor
    · intro hp
      rcases hp with hp | hp
      · have h4 := (I4 p).mp hp
        exact ⟨h4.1, List.mem_append_left _ h4.2.1, List.mem_append_left _ h4.2.2.1,
          h4.2.2.2⟩
      · rcases List.mem_filterMap.mp hp with ⟨b, hb, hgb⟩
        rw [sweepEmit_eq] at hgb
        obtain ⟨hst, hov, hord⟩ := hgb
        have hx1 := hActiveLt b hb
        have hx2 := hActiveLt2 b hb
        have hbt := ((I3 b).mp hb).1
        rcases hord with ⟨hab, hpeq⟩ | ⟨hab, hpeq⟩
        · rw [hpeq]
          exact ⟨hab, List.mem_append_right _ (List.mem_singleton.mpr rfl),
            List.mem_append_left _ hbt, hst, hov, hx1, hx2⟩
        · have hbne : b ≠ e.index := by
            intro hc; rw [hc] at hb; exact haActive hb
          rw [hpeq]
          refine ⟨lt_of_le_of_ne (le_of_not_lt hab) hbne, List.mem_append_left _ hbt,
            List.mem_append_right _ (List.mem_singleton.mpr rfl), ?_, ?_, hx2, hx1⟩
          · intro hc; exact hst ⟨hc.2, hc.1⟩
          · exact (yOverlap_symm _ _).mp hov
    · rintro ⟨h1, h2, h3, h4, h5, h6, h7⟩
      rcases List.mem_append.mp h2 with h2 | h2
      · rcases List.mem_append.mp h3 with h3 | h3
        · left
          exact (I4 p).mpr ⟨h1, h2, h3, h4, h5, h6, h7⟩
        · rw [List.mem_singleton] at h3
          have hp2a : p.2 = e.index := congrArg Prod.fst h3
          right
          have hbact : p.1 ∈ st.active := by
            refine (I3 p.1).mpr ⟨h2, hK4 p.1 ?_⟩
            rw [← hp2a]
            exact h7
          refine List.mem_filterMap.mpr ⟨p.1, hbact, ?_⟩
          rw [sweepEmit_eq]
          refine ⟨?_, ?_, Or.inr ⟨?_, ?_⟩⟩
          · intro hc
            rw [← hp2a] at hc
            exact h4 ⟨hc.2, hc.1⟩
          · rw [← hp2a]
            exact (yOverlap_symm _ _).mp h5
          · rw [hp2a] at h1
            omega
          · rw [← hp2a]
      · rw [List.mem_singleton] at h2
        have hp1a : p.1 = e.index := congrArg Prod.fst h2
        rcases List.mem_append.mp h3 with h3 | h3
        · right
          have hbact : p.2 ∈ st.active := by
            refine (I3 p.2).mpr ⟨h3, hK4 p.2 ?_⟩
            rw [← hp1a]
            exact h6
          refine List.mem_filterMap.mpr ⟨p.2, hbact, ?_⟩
          rw [sweepEmit_eq]
          refine ⟨?_, ?_, Or.inl ⟨?_, ?_⟩⟩
          · intro hc
            rw [← hp1a] at hc
            exact h4 hc
          · rw [← hp1a]
            exact h5
          · rw [hp1a] at h1
            exact h1
          · rw [← hp1a]
        · rw [List.mem_singleton] at h3
          have hcc : p.1 = p.2 := hp1a.trans (congrArg Prod.fst h3).symm
          omega
  · rw [hpairs, List.nodup_append]
    refine ⟨I5, ?_, ?_⟩
    · refine List.Nodup.filterMap ?_ I1
      intro b b2 p hpb hpb2
      rw [Option.mem_def, sweepEmit_eq] at hpb hpb2
      rcases hpb.2.2 with ⟨_, hpe⟩ | ⟨_, hpe⟩ <;>
        rcases hpb2.2.2 with ⟨_, hpe2⟩ | ⟨_, hpe2⟩
      · have e1 : p.2 = b := by rw [hpe]
        have e2 : p.2 = b2 := by rw [hpe2]
        rw [← e1, e2]
      · have e1 : p.2 = b := by rw [hpe]
        have e2 : p.1 = b2 := by rw [hpe2]
        have e3 : p.1 = e.index := by rw [hpe]
        have e4 : p.2 = e.index := by rw [hpe2]
        rw [← e1, e4, ← e3, e2]
      · have e1 : p.1 = b := by rw [hpe]
        have e2 : p.2 = b2 := by rw [hpe2]
        have e3 : p.2 = e.index := by rw [hpe]
        have e4 : p.1 = e.index := by rw [hpe2]
        rw [← e1, e4, ← e3, e2]
      · have e1 : p.1 = b := by rw [hpe]
        have e2 : p.1 = b2 := by rw [hpe2]
        rw [← e1, e2]
    · intro p hp hp2
      have h4 := (I4 p).mp hp
      rcases List.mem_filterMap.mp hp2 with ⟨b, hb, hgb⟩
      rw [sweepEmit_eq] at hgb
      rcases hgb.2.2 with ⟨_, hpe⟩ | ⟨_, hpe⟩
      · have : p.1 = e.index := by rw [hpe]
        rw [this] at h4
        exact hStartP h4.2.1
      · have : p.2 = e.index := by rw [hpe]
        rw [this] at h4
        exact hStartP h4.2.2.1

/-- Processing an end event preserves the sweep invariant. -/
theorem sweepStep_inv_end (bodies : List Body) (S P R2 : List Endpoint)
    (e : Endpoint) (st : SweepState)
    (HS : List.Sorted endpointLE S)
    (HP : (S.map epTag).Perm (canonicalTags bodies.length))
    (HC : ∀ x ∈ S, x.position = if x.isStart then (aabbAt bodies x.index).min.x
      else (aabbAt bodies x.index).max.x)
    (HND : ∀ i, i < bodies.length →
      (aabbAt bodies i).min.x < (aabbAt bodies i).max.x)
    (hdec : S = P ++ e :: R2) (he : e.isStart = false)
    (hInv : SweepInv bodies P st) :
    SweepInv bodies (P ++ [e]) (sweepStep bodies st e) := by
  obtain ⟨I1, I2, I3, I4, I5⟩ := hInv
  have hSl : List.Sorted endpointLE (P ++ e :: R2) := hdec ▸ HS
  have heR : ∀ y ∈ R2, ¬ endpointLT y e := fun y hy =>
    (List.pairwise_cons.mp (List.pairwise_append.mp hSl).2.1).1 y hy
  have hRS : ∀ y ∈ R2, y ∈ S := fun y hy => by
    rw [hdec]; exact List.mem_append_right _ (List.mem_cons_of_mem _ hy)
  have heS : e ∈ S := by
    rw [hdec]; exact List.mem_append_right _ (List.mem_cons_self e R2)
  have hePos : e.position = (aabbAt bodies e.index).max.x :=
    pos_of_end bodies S HC e heS he
  have hsplit := tag_split_self bodies S P R2 e HP hdec
  have haN : e.index < bodies.length := hsplit.1
  have heTag : epTag e = (e.index, false) := by rw [epTag, he]
  have hEndP : (e.index, false) ∉ P.map epTag := heTag ▸ hsplit.2.1
  have hStartP : (e.index, true) ∈ P.map epTag := by
    rcases tag_split_other bodies S P R2 e HP hdec true (by rw [he]; simp) with
      ⟨h1, _⟩ | ⟨_, h2⟩
    · exact h1
    · exfalso
      rcases List.mem_map.mp h2 with ⟨y, hy, hye⟩
      have hyi : y.index = e.index := congrArg Prod.fst hye
      have hys : y.isStart = true := congrArg Prod.snd hye
      have hypos : y.position = (aabbAt bodies y.index).min.x :=
        pos_of_start bodies S HC y (hRS y hy) hys
      refine heR y hy ?_
      rw [endpointLT_start_end hys he, hypos, hyi, hePos]
      exact HND e.index haN
  have hbact : e.index ∈ st.active := (I3 e.index).mpr ⟨hStartP, hEndP⟩
  have hsp := swapPop_full st.active st.mapping e.index I1 (I2 e.index hbact) I2
  have hact := sweepStep_end_active bodies st e he
  have hmapf := sweepStep_end_mapping bodies st e he
  have hpairs := sweepStep_end_pairs bodies st e he
  have hTags : (P ++ [e]).map epTag = P.map epTag ++ [(e.index, false)] := by
    rw [List.map_append]
    rw [show [e].map epTag = [(e.index, false)] by simp [heTag]]
  refine ⟨?_, ?_, ?_, ?_, ?_⟩
  · rw [hact]
    exact hsp.1
  · rw [hact, hmapf]
    intro b hb
    dsimp only
    exact hsp.2.2 b hb
  · rw [hact, hTags]
    intro b
    rw [hsp.2.1 b]
    constructor
    · rintro ⟨hb1, hb2⟩
      have h3 := (I3 b).mp hb1
      refine ⟨List.mem_append_left _ h3.1, ?_⟩
      intro hc
      rcases List.mem_append.mp hc with hc | hc
      · exact h3.2 hc
      · rw [List.mem_singleton] at hc
        exact hb2 (congrArg Prod.fst hc)
    · rintro ⟨h1, h2⟩
      have h1a : (b, true) ∈ P.map epTag := by
        rcases List.mem_append.mp h1 with h1 | h1
        · exact h1
        · rw [List.mem_singleton] at h1
          exact absurd (congrArg Prod.snd h1) (by simp)
      have hbne : b ≠ e.index := by
        intro hc
        exact h2 (List.mem_append_right _ (List.mem_singleton.mpr (by rw [hc])))
      exact ⟨(I3 b).mpr ⟨h1a, fun hc => h2 (List.mem_append_left _ hc)⟩, hbne⟩
  · rw [hpairs, hTags]
    intro p
    rw [I4 p]
    constructor
    · rintro ⟨h1, h2, h3, h4⟩
      exact ⟨h1, List.mem_append_left _ h2, List.mem_append_left _ h3, h4⟩
    · rintro ⟨h1, h2, h3, h4⟩
      have h2a : (p.1, true) ∈ P.map epTag := by
        rcases List.mem_append.mp h2 with h | h
        · exact h
        · rw [List.mem_singleton] at h
          exact absurd (congrArg Prod.snd h) (by simp)
      have h3a : (p.2, true) ∈ P.map epTag := by
        rcases List.mem_append.mp h3 with h | h
        · exact h
        · rw [List.mem_singleton] at h
          exact absurd (congrArg Prod.snd h) (by simp)
      exact ⟨h1, h2a, h3a, h4⟩
  · rw [hpairs]
    exact I5

/-- The sweep invariant holds of the empty initial state. -/
theorem sweepInv_init (bodies : List Body) :
    SweepInv bodies [] ⟨[], fun _ => 0, []⟩ := by
  refine ⟨List.nodup_nil, ?_, ?_, ?_, List.nodup_nil⟩
  · intro b hb
    exact absurd hb (List.not_mem_nil b)
  · intro b
    simp
  · intro p
    simp

/-- The sweep invariant is preserved by folding over any suffix of the
sorted endpoint list. -/
theorem sweepFold_inv (bodies : List Body) (S : List Endpoint)
    (HS : List.Sorted endpointLE S)
    (HP : (S.map epTag).Perm (canonicalTags bodies.length))
    (HC : ∀ x ∈ S, x.position = if x.isStart then (aabbAt bodies x.index).min.x
      else (aabbAt bodies x.index).max.x)
    (HND : ∀ i, i < bodies.length →
      (aabbAt bodies i).min.x < (aabbAt bodies i).max.x) :
    ∀ (R P : List Endpoint) (st : SweepState), S = P ++ R →
      SweepInv bodies P st →
      SweepInv bodies S (R.foldl (sweepStep bodies) st) := by
  intro R
  induction R with
  | nil =>
    intro P st hdec hInv
    rw [List.foldl_nil, hdec, List.append_nil]
    exact hInv
  | cons e R2 ih =>
    intro P st hdec hInv
    rw [List.foldl_cons]
    have hstep : SweepInv bodies (P ++ [e]) (sweepStep bodies st e) := by
      cases he : e.isStart with
      | true => exact sweepStep_inv_start bodies S P R2 e st HS HP HC HND hdec he hInv
      | false => exact sweepStep_inv_end bodies S P R2 e st HS HP HC HND hdec he hInv
    exact ih (P ++ [e]) (sweepStep bodies st e)
      (by rw [hdec, List.append_assoc, List.singleton_append]) hstep

/-- sweepAxis over a sorted well-formed endpoint list reports exactly the
reported pairs, without duplicates. -/
theorem sweepAxis_spec (bodies : List Body) (S : List Endpoint)
    (HS : List.Sorted endpointLE S)
    (HP : (S.map epTag).Perm (canonicalTags bodies.length))
    (HC : ∀ x ∈ S, x.position = if x.isStart then (aabbAt bodies x.index).min.x
      else (aabbAt bodies x.index).max.x)
    (HND : ∀ i, i < bodies.length →
      (aabbAt bodies i).min.x < (aabbAt bodies i).max.x) :
    (∀ p : ℕ × ℕ, p ∈ sweepAxis bodies S ↔ reportedPair bodies p.1 p.2) ∧
    (sweepAxis bodies S).Nodup := by
  obtain ⟨_, _, _, I4, I5⟩ := sweepFold_inv bodies S HS HP HC HND S []
    ⟨[], fun _ => 0, []⟩ (by rw [List.nil_append]) (sweepInv_init bodies)
  constructor
  · intro p
    unfold sweepAxis
    rw [I4 p]
    unfold reportedPair
    constructor
    · rintro ⟨h1, h2, h3, h4, h5, h6⟩
      exact ⟨h1, (tag_mem_S bodies S HP (p.2, true)).mp h3, h4, h6, h5⟩
    · rintro ⟨h1, h2, h3, h4, h5⟩
      exact ⟨h1, (tag_mem_S bodies S HP (p.1, true)).mpr (lt_trans h1 h2),
        (tag_mem_S bodies S HP (p.2, true)).mpr h2, h3, h5, h4⟩
  · exact I5

/-! Well-formedness of the refreshed endpoint list produced by
BroadPhase.update. -/

theorem canonicalTags_length (m : ℕ) : (canonicalTags m).length = 2 * m := by
  induction m with
  | zero => rfl
  | succ m ih =>
    unfold canonicalTags at ih ⊢
    rw [List.range_succ, List.flatMap_append, List.length_append, ih]
    simp
    omega

theorem tags_of_refresh (bodies : List Body) (l : List Endpoint) :
    (l.map (refreshEndpoint bodies)).map epTag = l.map epTag := by
  rw [List.map_map]
  rfl

theorem freshTags_map (a n : ℕ) :
    (((List.range' a n).flatMap fun i =>
        ([⟨0, i, true⟩, ⟨0, i, false⟩] : List Endpoint)).map epTag) =
      (List.range' a n).flatMap fun i => [(i, true), (i, false)] := by
  induction n generalizing a with
  | zero => rfl
  | succ n ih =>
    rw [List.range'_succ, List.flatMap_cons, List.flatMap_cons, List.map_append]
    rw [ih (a + 1)]
    rfl

theorem range_split (m n : ℕ) (h : m ≤ n) :
    List.range n = List.range m ++ List.range' m (n - m) := by
  rw [List.range_eq_range' n, List.range_eq_range' m]
  have h1 := List.range'_append 0 m (n - m) 1
  have h2 : 0 + 1 * m = m := by omega
  have h3 : n - m + m = n := by omega
  rw [h2, h3] at h1
  exact h1.symm

theorem canonicalTags_decomp (m n : ℕ) (h : m ≤ n) :
    canonicalTags n = canonicalTags m ++
      ((List.range' m (n - m)).flatMap fun i => [(i, true), (i, false)]) := by
  unfold canonicalTags
  rw [range_split m n h, List.flatMap_append]

theorem updateEndpoints_eq_keep (bodies : List Body) (es : List Endpoint)
    (h : ¬ 2 * bodies.length < es.length) :
    updateEndpoints bodies es =
      (es ++ (List.range' (es.length / 2) (bodies.length - es.length / 2)).flatMap
        (fun i => ([⟨0, i, true⟩, ⟨0, i, false⟩] : List Endpoint))).map
        (refreshEndpoint bodies) := by
  simp only [updateEndpoints, if_neg h]

theorem updateEndpoints_eq_fresh (bodies : List Body) (es : List Endpoint)
    (h : 2 * bodies.length < es.length) :
    updateEndpoints bodies es =
      ((List.range' 0 bodies.length).flatMap
        (fun i => ([⟨0, i, true⟩, ⟨0, i, false⟩] : List Endpoint))).map
        (refreshEndpoint bodies) := by
  simp only [updateEndpoints, if_pos h]
  simp

/-- Every endpoint coordinate produced by updateEndpoints is the matching
bound of its body's world AABB. -/
theorem updateEndpoints_pos (bodies : List Body) (es : List Endpoint) :
    ∀ x ∈ updateEndpoints bodies es,
      x.position = if x.isStart then (aabbAt bodies x.index).min.x
        else (aabbAt bodies x.index).max.x := by
  intro x hx
  unfold updateEndpoints at hx
  rcases List.mem_map.mp hx with ⟨y, _, hye⟩
  subst hye
  rfl

/-- updateEndpoints reestablishes the endpoint well-formedness over the
current body count, from any well-formed previous state. -/
theorem updateEndpoints_WF (bodies : List Body) (es : List Endpoint) (m0 : ℕ)
    (hwf : (es.map epTag).Perm (canonicalTags m0)) :
    ((updateEndpoints bodies es).map epTag).Perm (canonicalTags bodies.length) := by
  have hlen : es.length = 2 * m0 := by
    have h1 := hwf.length_eq
    rw [List.length_map, canonicalTags_length] at h1
    exact h1
  by_cases hcase : 2 * bodies.length < es.length
  · rw [updateEndpoints_eq_fresh bodies es hcase, tags_of_refresh, freshTags_map]
    rw [show canonicalTags bodies.length = (List.range' 0 bodies.length).flatMap
      (fun i => [(i, true), (i, false)]) from by
        unfold canonicalTags; rw [List.range_eq_range']]
  · have hle : m0 ≤ bodies.length := by omega
    have hdiv : es.length / 2 = m0 := by omega
    rw [updateEndpoints_eq_keep bodies es hcase, tags_of_refresh, List.map_append,
      freshTags_map, hdiv, canonicalTags_decomp m0 bodies.length hle]
    exact hwf.append_right _

/-- A nondegenerate body has an x-wide world AABB. -/
theorem bodyNondeg_aabb (b : Body) (h : bodyNondeg b) :
    b.aabb.min.x < b.aabb.max.x := by
  obtain ⟨hx, hy, hc⟩ := h
  have he : b.aabb.min.x = b.position.x -
      (b.halfSize.x * |b.rot.mat.col1.x| + b.halfSize.y * |b.rot.mat.col2.x|) := rfl
  have he2 : b.aabb.max.x = b.position.x +
      (b.halfSize.x * |b.rot.mat.col1.x| + b.halfSize.y * |b.rot.mat.col2.x|) := rfl
  rw [he, he2]
  have h1 : 0 < b.halfSize.x * |b.rot.mat.col1.x| +
      b.halfSize.y * |b.rot.mat.col2.x| := by
    rcases hc with hc | hc
    · have h2 := mul_pos hx (abs_pos.mpr hc)
      have h3 : 0 ≤ b.halfSize.y * |b.rot.mat.col2.x| :=
        mul_nonneg (le_of_lt hy) (abs_nonneg _)
      linarith
    · have h2 := mul_pos hy (abs_pos.mpr hc)
      have h3 : 0 ≤ b.halfSize.x * |b.rot.mat.col1.x| :=
        mul_nonneg (le_of_lt hx) (abs_nonneg _)
      linarith
  linarith

theorem nondeg_aabbAt (bodies : List Body) (hnd : ∀ b ∈ bodies, bodyNondeg b) :
    ∀ i, i < bodies.length →
      (aabbAt bodies i).min.x < (aabbAt bodies i).max.x := by
  intro i hi
  exact bodyNondeg_aabb _ (hnd _ (getD_mem bodies i _ hi))

/-- The pairs of a full broad-phase update are exactly the reported
pairs, each exactly once, from any previously well-formed endpoint state
and x-nondegenerate bodies. -/
theorem broadPhaseUpdate_spec (bodies : List Body) (es : List Endpoint) (m0 : ℕ)
    (hwf : (es.map epTag).Perm (canonicalTags m0))
    (HND : ∀ i, i < bodies.length →
      (aabbAt bodies i).min.x < (aabbAt bodies i).max.x) :
    (∀ p : ℕ × ℕ, p ∈ (broadPhaseUpdate bodies es).2 ↔
      reportedPair bodies p.1 p.2) ∧ (broadPhaseUpdate bodies es).2.Nodup := by
  have hperm : (List.insertionSort endpointLE (updateEndpoints bodies es)).Perm
      (updateEndpoints bodies es) :=
    List.perm_insertionSort endpointLE (updateEndpoints bodies es)
  have hsorted : List.Sorted endpointLE
      (List.insertionSort endpointLE (updateEndpoints bodies es)) :=
    List.sorted_insertionSort endpointLE (updateEndpoints bodies es)
  have hWF := (hperm.map epTag).trans (updateEndpoints_WF bodies es m0 hwf)
  have hpos : ∀ x ∈ List.insertionSort endpointLE (updateEndpoints bodies es),
      x.position = if x.isStart then (aabbAt bodies x.index).min.x
        else (aabbAt bodies x.index).max.x :=
    fun x hx => updateEndpoints_pos bodies es x (hperm.mem_iff.mp hx)
  exact sweepAxis_spec bodies _ hsorted hWF hpos HND

/-- C1: counterexample — the two unit boxes of touchBodies touch exactly
at x = 1, so their world AABBs overlap on every axis in the closed sense
of the claim's wording and they are not both static, yet one broad-phase
update from a fresh endpoint state reports no pair at all: the sweep
treats exact touch on the sort axis as non-overlap, because the end
endpoint sorts before the start endpoint at equal positions. -/
theorem claim_C1_counterexample :
    aabbOverlapSpec (aabbAt touchBodies 0) (aabbAt touchBodies 1) ∧
    ¬ (staticAt touchBodies 0 ∧ staticAt touchBodies 1) ∧
    (broadPhaseUpdate touchBodies []).2 = [] := by
  have ha : aabbAt touchBodies 0 = ⟨⟨-1, -1⟩, ⟨1, 1⟩⟩ := by with_unfolding_all rfl
  have hb : aabbAt touchBodies 1 = ⟨⟨1, -1⟩, ⟨3, 1⟩⟩ := by with_unfolding_all rfl
  refine ⟨by rw [ha, hb]; decide, by decide, by with_unfolding_all rfl⟩

/-- C1 (amended): from any well-formed previous endpoint state and bodies
with positive half sizes and a nonzero rotation row, one broad-phase
update reports a pair exactly once (membership, with no duplicates) iff
i < j, j is in range, the bodies are not both static, and their world
AABBs overlap strictly on the x axis and closedly on the y axis; pairs
whose AABBs merely touch on x are not reported. -/
theorem claim_C1_amended (bodies : List Body) (es : List Endpoint) (m0 : ℕ)
    (hwf : (es.map epTag).Perm (canonicalTags m0))
    (hnd : ∀ b ∈ bodies, bodyNondeg b) :
    (∀ p : ℕ × ℕ, p ∈ (broadPhaseUpdate bodies es).2 ↔
      reportedPair bodies p.1 p.2) ∧
    (broadPhaseUpdate bodies es).2.Nodup :=
  broadPhaseUpdate_spec bodies es m0 hwf (nondeg_aabbAt bodies hnd)

/-- Witness for C1 at the concrete two-box array and a fresh endpoint
state. -/
theorem claim_C1_witness :
    (∀ p : ℕ × ℕ, p ∈ (broadPhaseUpdate touchBodies []).2 ↔
      reportedPair touchBodies p.1 p.2) ∧
    (broadPhaseUpdate touchBodies []).2.Nodup :=
  claim_C1_amended touchBodies [] 0 (by decide)
    (by
      intro b hb
      rcases List.mem_cons.mp hb with h | hb2
      · rw [h]; decide
      · rcases List.mem_cons.mp hb2 with h | hb3
        · rw [h]; decide
        · exact absurd hb3 (List.not_mem_nil b))

/-! Claim C7: World.clear and the behaviour of the cleared world. -/

theorem updateEndpoints_nil (es : List Endpoint) :
    updateEndpoints ([] : List Body) es = [] := by
  by_cases h : 2 * ([] : List Body).length < es.length
  · rw [updateEndpoints_eq_fresh [] es h]
    rfl
  · have h0 : es.length = 0 := by
      simp only [List.length_nil] at h
      omega
    have hes : es = [] := List.eq_nil_of_length_eq_zero h0
    subst hes
    rfl

theorem solverSolveVelocities_empty (n : ℕ) (bodies : List Body) :
    solverSolveVelocities n ⟨[], []⟩ bodies = (⟨[], []⟩, bodies) := by
  induction n with
  | zero => rfl
  | succ n ih =>
    simp only [solverSolveVelocities]
    exact ih

theorem solverSolvePositions_empty (o : MathOracle) (n : ℕ) (bodies : List Body) :
    solverSolvePositions o n ⟨[], []⟩ bodies = (⟨[], []⟩, bodies) := by
  induction n with
  | zero => rfl
  | succ n ih =>
    simp only [solverSolvePositions]
    exact ih

/-- A step of a world with no bodies and no manifolds only empties the
endpoint list (the update drops a stale over-long list wholesale) and
changes nothing else. -/
theorem doStep_empty (g : Vec2) (vi pj : ℕ) (es : List Endpoint)
    (o : MathOracle) (dt : ℚ) :
    (World.mk g vi pj [] es ⟨[], []⟩).doStep o dt =
      World.mk g vi pj [] [] ⟨[], []⟩ := by
  have h1 : updateEndpoints ([] : List Body) es = [] := updateEndpoints_nil es
  have h2 : broadPhaseUpdate ([] : List Body) es = ([], []) := by
    simp only [broadPhaseUpdate, h1]
    rfl
  show solvePositionsPhase o (integratePositionsPhase o dt (solveVelocitiesPhase
    (prepareToSolvePhase (manifoldsUpdatePhase o (applyForcesPhase dt
      (World.mk g vi pj [] es ⟨[], []⟩)))))) = _
  have h3 : manifoldsUpdatePhase o (applyForcesPhase dt
      (World.mk g vi pj [] es ⟨[], []⟩)) = World.mk g vi pj [] [] ⟨[], []⟩ := by
    show manifoldsUpdatePhase o (World.mk g vi pj [] es ⟨[], []⟩) = _
    simp only [manifoldsUpdatePhase, h2]
    rfl
  rw [h3]
  show solvePositionsPhase o (integratePositionsPhase o dt (solveVelocitiesPhase
    (World.mk g vi pj [] [] ⟨[], []⟩))) = _
  have h4 : solveVelocitiesPhase (World.mk g vi pj [] [] ⟨[], []⟩) =
      World.mk g vi pj [] [] ⟨[], []⟩ := by
    simp only [solveVelocitiesPhase]
    rw [solverSolveVelocities_empty]
  rw [h4]
  show solvePositionsPhase o (World.mk g vi pj [] [] ⟨[], []⟩) = _
  simp only [solvePositionsPhase]
  rw [solverSolvePositions_empty]

/-- C7: counterexample — clearing a stepped world leaves the broad-phase
endpoint list non-empty: World.clear drops the bodies and the solver's
manifold cache but never touches the collision system's endpoint state. -/
theorem claim_C7_counterexample :
    ((staticWorld.doStep oracleId 1).clear).solver = ⟨[], []⟩ ∧
    ((staticWorld.doStep oracleId 1).clear).endpoints ≠ [] := by
  refine ⟨rfl, ?_⟩
  have h : ((staticWorld.doStep oracleId 1).clear).endpoints =
      [⟨-1, 0, true⟩, ⟨1, 0, false⟩] := by with_unfolding_all rfl
  rw [h]
  exact List.cons_ne_nil _ _

/-- C7 (amended): clear empties the body array and the solver's manifold
cache (both the key map and the dense manifold array) and preserves
gravity and the iteration counts, but leaves the broad-phase endpoint
list untouched; nevertheless every subsequent step behaves exactly as on
a freshly constructed world with the same gravity and iteration counts,
because the next update drops the stale over-long endpoint list
wholesale. -/
theorem claim_C7_amended (w : World) (o : MathOracle) (dt : ℚ) :
    w.clear.bodies = [] ∧
    w.clear.solver = ⟨[], []⟩ ∧
    w.clear.endpoints = w.endpoints ∧
    w.clear.gravity = w.gravity ∧
    w.clear.velocityIterations = w.velocityIterations ∧
    w.clear.positionIterations = w.positionIterations ∧
    w.clear.doStep o dt =
      (mkWorld w.gravity w.velocityIterations w.positionIterations).doStep o dt := by
  refine ⟨rfl, rfl, rfl, rfl, rfl, rfl, ?_⟩
  have h1 : w.clear.doStep o dt =
      World.mk w.gravity w.velocityIterations w.positionIterations [] [] ⟨[], []⟩ :=
    doStep_empty w.gravity w.velocityIterations w.positionIterations w.endpoints o dt
  have h2 : (mkWorld w.gravity w.velocityIterations w.positionIterations).doStep o dt =
      World.mk w.gravity w.velocityIterations w.positionIterations [] [] ⟨[], []⟩ :=
    doStep_empty w.gravity w.velocityIterations w.positionIterations [] o dt
  rw [h1, h2]

end nph
